import Mathlib

/-!
# bazo-miner: rollback engine, deduplicated response forwarding, peer registry

A shallow embedding of `miner/blockrollback.go`, `p2p/miner_interface.go` and
`p2p/peer.go`, followed by the properties proved about them.

Go state that lives in package-level variables (the ledger store, the received
stash, the typed channels, the peer maps) is passed explicitly.  A Go panic is
modelled by `none` (or `Outcome.crashed`); a returned `error` value by
`Option String`.
-/

namespace Bazo

/-! ## Protocol data (package `protocol`, declared outside the embedded files) -/

/-- A content hash, `[32]byte` in the source, read as a natural number. -/
abbrev Hash32 := Nat

/-- Modelled from the spec: `protocol.AccTx` (registers a new account); only its
`Hash()` is used by the embedded code, `data` stands for the remaining fields. -/
structure AccTx where
  Hash : Hash32
  data : Nat
deriving DecidableEq, Repr

/-- Modelled from the spec: `protocol.FundsTx` (transfers value between accounts);
`Hash` is the result of its `Hash()` method, `data` the remaining fields. -/
structure FundsTx where
  Hash : Hash32
  data : Nat
deriving DecidableEq, Repr

/-- Modelled from the spec: `protocol.ConfigTx` (mutates a protocol parameter). -/
structure ConfigTx where
  Hash : Hash32
  data : Nat
deriving DecidableEq, Repr

/-- Modelled from the spec: `protocol.StakeTx` (registers or deregisters a validator). -/
structure StakeTx where
  Hash : Hash32
  data : Nat
deriving DecidableEq, Repr

/-- Modelled from the spec: `protocol.AggSenderTx`, an aggregate that carries its own
hash and the hash of every funds transaction it wraps (`AggregatedTxSlice`). -/
structure AggSenderTx where
  Hash : Hash32
  AggregatedTxSlice : List Hash32
  data : Nat
deriving DecidableEq, Repr

/-- Modelled from the spec: `protocol.AggReceiverTx`, the receiver-side aggregate. -/
structure AggReceiverTx where
  Hash : Hash32
  data : Nat
deriving DecidableEq, Repr

/-- The interface type `protocol.Transaction`: a value of one of the six kinds. -/
inductive Transaction where
  | accTx (t : AccTx)
  | fundsTx (t : FundsTx)
  | configTx (t : ConfigTx)
  | stakeTx (t : StakeTx)
  | aggSenderTx (t : AggSenderTx)
  | aggReceiverTx (t : AggReceiverTx)
deriving DecidableEq, Repr

/-- The `Hash()` method of the interface, dispatched on the dynamic kind. -/
def Transaction.Hash : Transaction → Hash32
  | .accTx t => t.Hash
  | .fundsTx t => t.Hash
  | .configTx t => t.Hash
  | .stakeTx t => t.Hash
  | .aggSenderTx t => t.Hash
  | .aggReceiverTx t => t.Hash

/-- The type assertion `tx.(*protocol.AccTx)`; `none` is the run-time panic. -/
def asAccTx : Transaction → Option AccTx
  | .accTx t => some t
  | _ => none

/-- The type assertion `tx.(*protocol.FundsTx)`. -/
def asFundsTx : Transaction → Option FundsTx
  | .fundsTx t => some t
  | _ => none

/-- The type assertion `tx.(*protocol.ConfigTx)`. -/
def asConfigTx : Transaction → Option ConfigTx
  | .configTx t => some t
  | _ => none

/-- The type assertion `tx.(*protocol.StakeTx)`. -/
def asStakeTx : Transaction → Option StakeTx
  | .stakeTx t => some t
  | _ => none

/-- The type assertion `tx.(*protocol.AggSenderTx)`. -/
def asAggSenderTx : Transaction → Option AggSenderTx
  | .aggSenderTx t => some t
  | _ => none

/-- Modelled from the spec: `protocol.Block`, the header fields the rollback reads
(`Hash`, `PrevHash`, `Beneficiary`, `Height`) and one ordered sequence of transaction
hashes per transaction kind. -/
structure Block where
  Hash : Hash32
  PrevHash : Hash32
  Beneficiary : Hash32
  Height : Nat
  AccTxData : List Hash32
  FundsTxData : List Hash32
  ConfigTxData : List Hash32
  StakeTxData : List Hash32
  AggSenderTxData : List Hash32
  AggReceiverTxData : List Hash32
deriving DecidableEq, Repr

/-! ## Ledger store and ledger state (package `storage` and the state primitives) -/

/-- The process state the rollback works on: the ledger state proper (`env`: accounts,
balances, stake flags, nonces, active parameters, statistics), left abstract, and the
ledger store.  Each store is the list of its entries; an entry is addressed by the
hash it carries. -/
structure World (Env : Type) where
  env : Env
  openTxs : List Transaction
  closedTxs : List Transaction
  closedBlocks : List Block
  receivedStash : List Block
  lastClosedBlock : List Block
deriving Repr

/-- Modelled from the spec: `storage.ReadClosedTx`, `readClosedTx(hash) -> tx | none`,
the closed transaction stored under `hash`, or nil. -/
def ReadClosedTx {Env : Type} (hash : Hash32) (w : World Env) : Option Transaction :=
  w.closedTxs.find? (fun tx => tx.Hash == hash)

/-- Modelled from the spec: `storage.WriteOpenTx`, `writeOpenTx(tx)`, stores `tx` in
open storage under its hash, replacing an older entry of that hash. -/
def WriteOpenTx {Env : Type} (tx : Transaction) (w : World Env) : World Env :=
  { w with openTxs := tx :: w.openTxs.filter (fun t => t.Hash != tx.Hash) }

/-- Modelled from the spec: `storage.DeleteClosedTx`, `deleteClosedTx(tx)`, removes the
entry stored under the hash of `tx` from closed storage; a no-op when there is none. -/
def DeleteClosedTx {Env : Type} (tx : Transaction) (w : World Env) : World Env :=
  { w with closedTxs := w.closedTxs.filter (fun t => t.Hash != tx.Hash) }

/-- Modelled from the spec: `storage.ReadClosedBlock`, `readClosedBlock(hash) -> block | none`. -/
def ReadClosedBlock {Env : Type} (hash : Hash32) (w : World Env) : Option Block :=
  w.closedBlocks.find? (fun b => b.Hash == hash)

/-- Modelled from the spec: `storage.DeleteClosedBlock`, `deleteClosedBlock(hash)`. -/
def DeleteClosedBlock {Env : Type} (hash : Hash32) (w : World Env) : World Env :=
  { w with closedBlocks := w.closedBlocks.filter (fun b => b.Hash != hash) }

/-- Modelled from the spec: `storage.WriteToReceivedStash`, `writeToReceivedStash(block)`,
appends the block to the bounded received stash; the spec gives no capacity, so it is
the parameter `cap`, and the oldest entries are dropped beyond it. -/
def WriteToReceivedStash {Env : Type} (cap : Nat) (block : Block) (w : World Env) : World Env :=
  { w with receivedStash :=
      (w.receivedStash ++ [block]).drop ((w.receivedStash ++ [block]).length - cap) }

/-- Modelled from the spec: `storage.DeleteAllLastClosedBlock`, removes every
last-closed-block marker. -/
def DeleteAllLastClosedBlock {Env : Type} (w : World Env) : World Env :=
  { w with lastClosedBlock := [] }

/-- Modelled from the spec: `storage.WriteLastClosedBlock`, `writeLastClosedBlock(block)`,
records `block` as a last-closed-block marker under its hash. -/
def WriteLastClosedBlock {Env : Type} (block : Block) (w : World Env) : World Env :=
  { w with lastClosedBlock := block :: w.lastClosedBlock.filter (fun b => b.Hash != block.Hash) }

/-- Whether open storage holds an entry under `hash`. -/
def inOpen {Env : Type} (hash : Hash32) (w : World Env) : Bool :=
  w.openTxs.any (fun tx => tx.Hash == hash)

/-- Whether closed storage holds an entry under `hash`. -/
def inClosed {Env : Type} (hash : Hash32) (w : World Env) : Bool :=
  (ReadClosedTx hash w).isSome

/-- Modelled from the spec: the State Mutation Primitives and the parameter restore,
all defined outside the embedded files.  Each takes the arguments the source passes
and acts on the ledger state only; `none` is a crash.  `Slash_reward` and
`Block_reward` read the fields of the global `activeParameters`. -/
structure Primitives (Env : Type) where
  Slash_reward : Env → Nat
  Block_reward : Env → Nat
  configStateChangeRollback : List ConfigTx → Hash32 → Env → Option Env
  collectSlashRewardRollback : Nat → Block → Env → Option Env
  collectBlockRewardRollback : Nat → Hash32 → Env → Option Env
  collectTxFeesRollback :
    List AccTx → List FundsTx → List ConfigTx → List StakeTx → Hash32 → Env → Option Env
  stakeStateChangeRollback : List StakeTx → Env → Option Env
  fundsStateChangeRollback : List FundsTx → Env → Option Env
  aggregatedSenderStateRollback : List AggSenderTx → Env → Option Env
  aggregatedReceiverStateRollback : List AggReceiverTx → Env → Option Env
  accStateChangeRollback : List AccTx → Env → Option Env
  collectStatisticsRollback : Block → Env → Option Env

/-! ## `miner/blockrollback.go` -/

/-- The struct `blockData` built in `rollback`: the six slices and the block. -/
structure blockData where
  accTxSlice : List AccTx
  fundsTxSlice : List FundsTx
  configTxSlice : List ConfigTx
  stakeTxSlice : List StakeTx
  aggSenderTxSlice : List AggSenderTx
  aggReceiverTxSlice : List AggReceiverTx
  block : Block
deriving DecidableEq, Repr

/-- How one fetch loop of `preValidateRollback` ends: every hash resolved (`found`), a
hash with no closed entry reached first (`missing`, the loop returns the error), or an
entry of another kind reached first (`badKind`, the type assertion panics). -/
inductive Fetch (α : Type) where
  | found (slice : List α)
  | missing
  | badKind
deriving DecidableEq, Repr

/-- One `for _, hash := range ...` loop of `preValidateRollback`: look each hash up in
closed storage, return at the first nil, assert the kind, append to the slice. -/
def fetchClosed {Env α : Type} (assert : Transaction → Option α) (w : World Env) :
    List Hash32 → Fetch α
  | [] => .found []
  | hash :: rest =>
    match ReadClosedTx hash w with
    | none => .missing
    | some tx =>
      match assert tx with
      | none => .badKind
      | some t =>
        match fetchClosed assert w rest with
        | .found slice => .found (t :: slice)
        | .missing => .missing
        | .badKind => .badKind

/-- The values `preValidateRollback` returns: the six slices and the error. -/
structure PreValidated where
  accTxSlice : List AccTx
  fundsTxSlice : List FundsTx
  configTxSlice : List ConfigTx
  stakeTxSlice : List StakeTx
  aggSenderTxSlice : List AggSenderTx
  aggReceiverTxSlice : List AggReceiverTx
  err : Option String
deriving DecidableEq, Repr

/-- The return statement of every miss: all slices nil and the error. -/
def preValidateError (msg : String) : PreValidated :=
  ⟨[], [], [], [], [], [], some msg⟩

/-- The function `preValidateRollback`: fetch all transactions of the block from closed
storage, kind by kind.  `none` is the panic of a failed type assertion.  The slice of
aggregated receiver transactions is never filled. -/
def preValidateRollback {Env : Type} (b : Block) (w : World Env) : Option PreValidated :=
  match fetchClosed asAccTx w b.AccTxData with
  | .badKind => none
  | .missing =>
    some (preValidateError "CRITICAL: Validated accTx was not in the confirmed tx storage")
  | .found accTxSlice =>
  match fetchClosed asFundsTx w b.FundsTxData with
  | .badKind => none
  | .missing =>
    some (preValidateError "CRITICAL: Validated fundsTx was not in the confirmed tx storage")
  | .found fundsTxSlice =>
  match fetchClosed asConfigTx w b.ConfigTxData with
  | .badKind => none
  | .missing =>
    some (preValidateError "CRITICAL: Validated configTx was not in the confirmed tx storage")
  | .found configTxSlice =>
  match fetchClosed asStakeTx w b.StakeTxData with
  | .badKind => none
  | .missing =>
    some (preValidateError "CRITICAL: Validated stakeTx was not in the confirmed tx storage")
  | .found stakeTxSlice =>
  match fetchClosed asAggSenderTx w b.AggSenderTxData with
  | .badKind => none
  | .missing =>
    some (preValidateError "CRITICAL: Aggregated Transaction was not in the confirmed tx storage")
  | .found aggSenderTxSlice =>
    some ⟨accTxSlice, fundsTxSlice, configTxSlice, stakeTxSlice, aggSenderTxSlice, [], none⟩

/-- Apply a ledger-state primitive to the `env` component of the world. -/
def onEnv {Env : Type} (f : Env → Option Env) (w : World Env) : Option (World Env) :=
  (f w.env).map (fun e => { w with env := e })

/-- The function `validateStateRollback`: the eight reversals, in the order of the source. -/
def validateStateRollback {Env : Type} (P : Primitives Env) (data : blockData)
    (w : World Env) : Option (World Env) := do
  let w ← onEnv (P.collectSlashRewardRollback (P.Slash_reward w.env) data.block) w
  let w ← onEnv (P.collectBlockRewardRollback (P.Block_reward w.env) data.block.Beneficiary) w
  let w ← onEnv (P.collectTxFeesRollback data.accTxSlice data.fundsTxSlice data.configTxSlice
    data.stakeTxSlice data.block.Beneficiary) w
  let w ← onEnv (P.stakeStateChangeRollback data.stakeTxSlice) w
  let w ← onEnv (P.fundsStateChangeRollback data.fundsTxSlice) w
  let w ← onEnv (P.aggregatedSenderStateRollback data.aggSenderTxSlice) w
  let w ← onEnv (P.aggregatedReceiverStateRollback data.aggReceiverTxSlice) w
  onEnv (P.accStateChangeRollback data.accTxSlice) w

/-- The body `storage.WriteOpenTx(tx); storage.DeleteClosedTx(tx)` of the first four
loops of `postValidateRollback`. -/
def reopenTx {Env : Type} (tx : Transaction) (w : World Env) : World Env :=
  DeleteClosedTx tx (WriteOpenTx tx w)

/-- The inner loop over `tx.AggregatedTxSlice`: read the aggregated transaction from
closed storage, write it to open storage, delete it from closed storage.  A hash with
no closed entry makes `storage.WriteOpenTx` receive nil, which has no hash to store
under: the crash `none`. -/
def reopenAggregated {Env : Type} : List Hash32 → World Env → Option (World Env)
  | [], w => some w
  | aggregatedTxHash :: rest, w =>
    match ReadClosedTx aggregatedTxHash w with
    | none => none
    | some trx => reopenAggregated rest (reopenTx trx w)

/-- The loop over `data.aggSenderTxSlice`: reopen the aggregated funds transactions,
then delete the aggregate from closed storage without writing it to open storage. -/
def rollbackAggSenders {Env : Type} : List AggSenderTx → World Env → Option (World Env)
  | [], w => some w
  | tx :: rest, w =>
    match reopenAggregated tx.AggregatedTxSlice w with
    | none => none
    | some w1 => rollbackAggSenders rest (DeleteClosedTx (.aggSenderTx tx) w1)

/-- The function `postValidateRollback`: put the transactions back into open storage and retire the
block.  `cap` is the capacity of the received stash.  The last statement passes the
result of `storage.ReadClosedBlock` on: nil has no hash to be stored under, the crash. -/
def postValidateRollback {Env : Type} (P : Primitives Env) (cap : Nat) (data : blockData)
    (w : World Env) : Option (World Env) := do
  let w := data.accTxSlice.foldl (fun w tx => reopenTx (.accTx tx) w) w
  let w := data.fundsTxSlice.foldl (fun w tx => reopenTx (.fundsTx tx) w) w
  let w := data.configTxSlice.foldl (fun w tx => reopenTx (.configTx tx) w) w
  let w := data.stakeTxSlice.foldl (fun w tx => reopenTx (.stakeTx tx) w) w
  let w ← rollbackAggSenders data.aggSenderTxSlice w
  let w ← onEnv (P.collectStatisticsRollback data.block) w
  let w := DeleteClosedBlock data.block.Hash w
  let w := WriteToReceivedStash cap data.block w
  let w := DeleteAllLastClosedBlock w
  match ReadClosedBlock data.block.PrevHash w with
  | none => none
  | some prev => some (WriteLastClosedBlock prev w)

/-- How a call of `rollback` ends: it returns its `error` value (`none` is nil) and leaves
the world `w`, or the process crashes. -/
inductive Outcome (σ : Type) where
  | returned (err : Option String) (w : σ)
  | crashed
deriving Repr

/-- The part of `rollback` after a successful pre-validation. -/
def rollbackSteps {Env : Type} (P : Primitives Env) (cap : Nat) (b : Block) (data : blockData)
    (w : World Env) : Option (World Env) := do
  let w ← onEnv (P.configStateChangeRollback data.configTxSlice b.Hash) w
  let w ← validateStateRollback P data w
  postValidateRollback P cap data w

/-- The function `rollback`: pre-validate, restore the parameters, reverse the state changes, reopen
the transactions and retire the block. -/
def rollback {Env : Type} (P : Primitives Env) (cap : Nat) (b : Block) (w : World Env) :
    Outcome (World Env) :=
  match preValidateRollback b w with
  | none => .crashed
  | some pre =>
    match pre.err with
    | some err => .returned (some err) w
    | none =>
      let data : blockData := ⟨pre.accTxSlice, pre.fundsTxSlice, pre.configTxSlice,
        pre.stakeTxSlice, pre.aggSenderTxSlice, pre.aggReceiverTxSlice, b⟩
      match rollbackSteps P cap b data w with
      | none => .crashed
      | some w1 => .returned none w1

/-! ## `p2p/protocol.go` -/

/-- The constant `FUNDSTX_RES`. -/
def FUNDSTX_RES : Nat := 20

/-- The constant `ACCTX_RES`. -/
def ACCTX_RES : Nat := 21

/-- The constant `CONFIGTX_RES`. -/
def CONFIGTX_RES : Nat := 22

/-- The constant `STAKETX_RES`. -/
def STAKETX_RES : Nat := 23

/-- The constant `AGGTX_RES`. -/
def AGGTX_RES : Nat := 29

/-! ## `p2p/peer.go` -/

/-- The constant `PEERTYPE_MINER`. -/
def PEERTYPE_MINER : Nat := 1

/-- The constant `PEERTYPE_CLIENT`. -/
def PEERTYPE_CLIENT : Nat := 2

/-- A pointer `*peer`: the address of a peer record on the heap. -/
abbrev PeerRef := Nat

/-- The struct `peer`.  `conn` is the string `p.conn.RemoteAddr().String()` of the
connection; the channel `ch` and the mutex `l` carry no data and are left out. -/
structure peer where
  conn : String
  listenerPort : String
  time : Int
  peerType : Nat
deriving DecidableEq, Repr

/-- The method `getIPPort`: `strings.Split(addr, ":")[0]`, the remote address up to its first colon,
then a colon and the listener port. -/
def peer.getIPPort (p : peer) : String :=
  String.mk (p.conn.toList.takeWhile (fun c => c != ':')) ++ ":" ++ p.listenerPort

/-- A Go `map[*peer]bool` as the registry uses it (every key is stored with `true`): the
keys, each once, in the order a `range` loop visits them. -/
structure PeerMap where
  keys : List PeerRef
  nodup : keys.Nodup

/-- The empty map. -/
def PeerMap.empty : PeerMap := ⟨[], List.nodup_nil⟩

/-- The builtin `delete(m, p)`. -/
def PeerMap.delete (m : PeerMap) (p : PeerRef) : PeerMap :=
  ⟨m.keys.filter (fun q => q != p), m.nodup.filter _⟩

/-- The assignment `m[p] = true`. -/
def PeerMap.set (m : PeerMap) (p : PeerRef) : PeerMap :=
  if h : p ∈ m.keys then m
  else ⟨m.keys ++ [p], List.Nodup.append m.nodup (List.nodup_singleton p)
    (by
      intro a ha hp
      have hap : a = p := by simpa using hp
      exact h (hap ▸ ha))⟩

/-- The struct `peersStruct`; the two mutexes carry no data. -/
structure peersStruct where
  minerConns : PeerMap
  clientConns : PeerMap

/-- The value `&delayedMessagesPerSender{p, nil}` stored in `sendingMap`: the peer and
its delayed messages. -/
structure delayedMessagesPerSender where
  peer : PeerRef
  delayedMessages : List (List Nat)
deriving DecidableEq, Repr

/-- The state of package `p2p` that the registry operations touch: the peer records
behind the pointers, the registry `peers` and the global `sendingMap` (a map from
address to entry, as its list of bindings). -/
structure Network where
  heap : PeerRef → peer
  peers : peersStruct
  sendingMap : List (String × delayedMessagesPerSender)

/-- The assignment `sendingMap[key] = entry`. -/
def sendingMapSet (key : String) (entry : delayedMessagesPerSender)
    (m : List (String × delayedMessagesPerSender)) : List (String × delayedMessagesPerSender) :=
  if m.any (fun kv => kv.1 == key) then
    m.map (fun kv => if kv.1 == key then (key, entry) else kv)
  else m ++ [(key, entry)]

/-- The type of `isConnectionAlreadyInSendingMap`, a function defined outside the
embedded files: it reads the peer and the sending map and answers
`(alreadyInSenderMap, needsUpdate)`. -/
abbrev SendingMapCheck :=
  peer → (PeerRef → peer) → List (String × delayedMessagesPerSender) → Bool × Bool

/-- The first loop of `add`: delete every miner entry whose address equals that of `p`. -/
def deleteSameAddress (heap : PeerRef → peer) (p : PeerRef) (m : PeerMap) : PeerMap :=
  m.keys.foldl
    (fun acc peer => if (heap p).getIPPort = (heap peer).getIPPort then acc.delete peer else acc) m

/-- The last loop of `add`: create a sending-map entry for every miner peer that has none. -/
def createSendingMaps (check : SendingMapCheck) (heap : PeerRef → peer) (miners : List PeerRef)
    (sendingMap : List (String × delayedMessagesPerSender)) :
    List (String × delayedMessagesPerSender) :=
  miners.foldl
    (fun sm p =>
      let r := check (heap p) heap sm
      if !r.1 && !r.2 then sendingMapSet (heap p).getIPPort ⟨p, []⟩ sm else sm)
    sendingMap

/-- The method `peersStruct.add`. -/
def add (check : SendingMapCheck) (p : PeerRef) (n : Network) : Network :=
  let peers1 : peersStruct :=
    if (n.heap p).peerType = PEERTYPE_MINER then
      { n.peers with minerConns := (deleteSameAddress n.heap p n.peers.minerConns).set p }
    else n.peers
  let peers2 : peersStruct :=
    if (n.heap p).peerType = PEERTYPE_CLIENT then
      { peers1 with clientConns := peers1.clientConns.set p }
    else peers1
  { n with
    peers := peers2
    sendingMap := createSendingMaps check n.heap peers2.minerConns.keys n.sendingMap }

/-- The method `peersStruct.delete`. -/
def delete (p : PeerRef) (n : Network) : Network :=
  let peers1 : peersStruct :=
    if (n.heap p).peerType = PEERTYPE_MINER then
      { n.peers with minerConns := n.peers.minerConns.delete p }
    else n.peers
  let peers2 : peersStruct :=
    if (n.heap p).peerType = PEERTYPE_CLIENT then
      { peers1 with clientConns := peers1.clientConns.delete p }
    else peers1
  { n with peers := peers2 }

/-- The body of the loop of `getMinerTimes`: append the time of the peer and set it to 0. -/
def consumeTime (acc : List Int × (PeerRef → peer)) (p : PeerRef) : List Int × (PeerRef → peer) :=
  (acc.1 ++ [(acc.2 p).time],
   fun q => if q = p then { acc.2 p with time := 0 } else acc.2 q)

/-- The method `peersStruct.getMinerTimes`: the returned `peerTimes` and the state after. -/
def getMinerTimes (n : Network) : List Int × Network :=
  let r := n.peers.minerConns.keys.foldl consumeTime ([], n.heap)
  (r.1, { n with heap := r.2 })

/-! ## `p2p/miner_interface.go` -/

/-- The `Decode` methods of the transaction types, defined outside the embedded files:
each turns a payload into a transaction or nil. -/
structure Decoders where
  fundsTx : List Nat → Option FundsTx
  accTx : List Nat → Option AccTx
  configTx : List Nat → Option ConfigTx
  stakeTx : List Nat → Option StakeTx
  aggTx : List Nat → Option AggSenderTx

/-- The package variables of `miner_interface.go` that `forwardTxReqToMiner` touches: the
stash and, for every typed channel, the values sent on it so far, oldest first. -/
structure MinerInterface where
  receivedTXStash : List FundsTx
  FundsTxChan : List FundsTx
  AccTxChan : List AccTx
  ConfigTxChan : List ConfigTx
  StakeTxChan : List StakeTx
  AggTxChan : List AggSenderTx
deriving DecidableEq, Repr

/-- The function `txAlreadyInStash`: whether some transaction of the slice has the hash. -/
def txAlreadyInStash : List FundsTx → Hash32 → Bool
  | [], _ => false
  | txInStash :: rest, newTXHash =>
    if txInStash.Hash = newTXHash then true else txAlreadyInStash rest newTXHash

/-- The function `forwardTxReqToMiner`; a nil payload is `none`. -/
def forwardTxReqToMiner (D : Decoders) (_p : PeerRef) (payload : Option (List Nat)) (txType : Nat)
    (s : MinerInterface) : MinerInterface :=
  match payload with
  | none => s
  | some payload =>
    if txType = FUNDSTX_RES then
      match D.fundsTx payload with
      | none => s
      | some fundsTx =>
        if !txAlreadyInStash s.receivedTXStash fundsTx.Hash then
          let stash := s.receivedTXStash ++ [fundsTx]
          { s with
            FundsTxChan := s.FundsTxChan ++ [fundsTx]
            receivedTXStash := if stash.length > 1000 then stash.drop 1 else stash }
        else s
    else if txType = ACCTX_RES then
      match D.accTx payload with
      | none => s
      | some accTx => { s with AccTxChan := s.AccTxChan ++ [accTx] }
    else if txType = CONFIGTX_RES then
      match D.configTx payload with
      | none => s
      | some configTx => { s with ConfigTxChan := s.ConfigTxChan ++ [configTx] }
    else if txType = STAKETX_RES then
      match D.stakeTx payload with
      | none => s
      | some stakeTx => { s with StakeTxChan := s.StakeTxChan ++ [stakeTx] }
    else if txType = AGGTX_RES then
      match D.aggTx payload with
      | none => s
      | some aggTx => { s with AggTxChan := s.AggTxChan ++ [aggTx] }
    else s

/-- One call of `forwardTxReqToMiner`: the peer, the payload and the type. -/
structure Call where
  p : PeerRef
  payload : Option (List Nat)
  txType : Nat
deriving DecidableEq, Repr

/-- A sequence of calls of `forwardTxReqToMiner`, one after the other. -/
def forwardAll (D : Decoders) (calls : List Call) (s : MinerInterface) : MinerInterface :=
  calls.foldl (fun s c => forwardTxReqToMiner D c.p c.payload c.txType s) s

/-- The state at start-up: `receivedTXStash = make([]*protocol.FundsTx, 0)` and nothing
sent on any channel. -/
def MinerInterface.init : MinerInterface := ⟨[], [], [], [], [], []⟩

/-! ## Example data -/

/-- Ledger primitives over a log of invocations: each one only appends its own name. -/
def logPrimitives : Primitives (List String) where
  Slash_reward := fun _ => 0
  Block_reward := fun _ => 0
  configStateChangeRollback := fun _ _ log => some (log ++ ["configStateChangeRollback"])
  collectSlashRewardRollback := fun _ _ log => some (log ++ ["collectSlashRewardRollback"])
  collectBlockRewardRollback := fun _ _ log => some (log ++ ["collectBlockRewardRollback"])
  collectTxFeesRollback := fun _ _ _ _ _ log => some (log ++ ["collectTxFeesRollback"])
  stakeStateChangeRollback := fun _ log => some (log ++ ["stakeStateChangeRollback"])
  fundsStateChangeRollback := fun _ log => some (log ++ ["fundsStateChangeRollback"])
  aggregatedSenderStateRollback := fun _ log => some (log ++ ["aggregatedSenderStateRollback"])
  aggregatedReceiverStateRollback := fun _ log => some (log ++ ["aggregatedReceiverStateRollback"])
  accStateChangeRollback := fun _ log => some (log ++ ["accStateChangeRollback"])
  collectStatisticsRollback := fun _ log => some (log ++ ["collectStatisticsRollback"])

/-- The outcome is a success whose final world passes the test `p`. -/
def succeededWith {σ : Type} (o : Outcome σ) (p : σ → Bool) : Bool :=
  match o with
  | .returned none w => p w
  | _ => false

/-- A closed block with hash 1, the predecessor of the example blocks. -/
def exPrev : Block := ⟨1, 0, 9, 0, [], [], [], [], [], []⟩

/-- A block listing the account transaction 4 and the funds transactions 5 and 6. -/
def exBlockPlain : Block := ⟨2, 1, 9, 1, [4], [5, 6], [], [], [], []⟩

/-- A world whose closed storage lacks the funds transaction 6 of `exBlockPlain`. -/
def exWorldMissing : World (List String) :=
  ⟨[], [], [.accTx ⟨4, 0⟩, .fundsTx ⟨5, 0⟩], [exPrev, exBlockPlain], [], [exBlockPlain]⟩

/-- A world whose closed storage holds every transaction of `exBlockPlain`. -/
def exWorldPlain : World (List String) :=
  ⟨[], [], [.accTx ⟨4, 0⟩, .fundsTx ⟨5, 0⟩, .fundsTx ⟨6, 0⟩], [exPrev, exBlockPlain], [],
    [exBlockPlain]⟩

/-- A block listing one aggregate, 7, which wraps the funds transactions 5 and 6. -/
def exBlockAgg : Block := ⟨2, 1, 9, 1, [], [], [], [], [7], []⟩

/-- The aggregate 7. -/
def exAgg : AggSenderTx := ⟨7, [5, 6], 0⟩

/-- A world whose closed storage holds the aggregate 7 and the transactions it wraps. -/
def exWorldAgg : World (List String) :=
  ⟨[], [], [.aggSenderTx exAgg, .fundsTx ⟨5, 0⟩, .fundsTx ⟨6, 0⟩], [exPrev, exBlockAgg], [],
    [exBlockAgg]⟩

/-- As `exWorldAgg`, with the aggregate 7 in open storage as well. -/
def exWorldAggOpen : World (List String) :=
  { exWorldAgg with openTxs := [.aggSenderTx exAgg] }

/-- A block listing two aggregates: 7, which wraps 8, and 8, which wraps nothing. -/
def exBlockNested : Block := ⟨2, 1, 9, 1, [], [], [], [], [7, 8], []⟩

/-- A world for `exBlockNested`: closed storage holds the aggregates 7 and 8. -/
def exWorldNested : World (List String) :=
  ⟨[], [], [.aggSenderTx ⟨7, [8], 0⟩, .aggSenderTx ⟨8, [], 0⟩], [exPrev, exBlockNested], [],
    [exBlockNested]⟩

/-- A block without any transaction. -/
def exBlockEmpty : Block := ⟨2, 1, 9, 1, [], [], [], [], [], []⟩

/-- A world in which `exBlockEmpty` is the last closed block. -/
def exWorldEmpty : World (List String) :=
  ⟨[], [], [], [exPrev, exBlockEmpty], [], [exBlockEmpty]⟩

/-- The log after one successful `rollback` with `logPrimitives`, from an empty log. -/
def rollbackLog : List String :=
  ["configStateChangeRollback", "collectSlashRewardRollback", "collectBlockRewardRollback",
   "collectTxFeesRollback", "stakeStateChangeRollback", "fundsStateChangeRollback",
   "aggregatedSenderStateRollback", "aggregatedReceiverStateRollback", "accStateChangeRollback",
   "collectStatisticsRollback"]

/-- The world after `rollback(exBlockPlain)` in `exWorldPlain`. -/
def exWorldPlainAfter : World (List String) :=
  ⟨rollbackLog, [.fundsTx ⟨6, 0⟩, .fundsTx ⟨5, 0⟩, .accTx ⟨4, 0⟩], [], [exPrev], [exBlockPlain],
    [exPrev]⟩

/-- The world after `rollback(exBlockAgg)` in `exWorldAgg`. -/
def exWorldAggAfter : World (List String) :=
  ⟨rollbackLog, [.fundsTx ⟨6, 0⟩, .fundsTx ⟨5, 0⟩], [], [exPrev], [exBlockAgg], [exPrev]⟩

/-- The world after `rollback(exBlockAgg)` in `exWorldAggOpen`. -/
def exWorldAggOpenAfter : World (List String) :=
  ⟨rollbackLog, [.fundsTx ⟨6, 0⟩, .fundsTx ⟨5, 0⟩, .aggSenderTx exAgg], [], [exPrev],
    [exBlockAgg], [exPrev]⟩

/-- The world after `rollback(exBlockNested)` in `exWorldNested`. -/
def exWorldNestedAfter : World (List String) :=
  ⟨rollbackLog, [.aggSenderTx ⟨8, [], 0⟩], [], [exPrev], [exBlockNested], [exPrev]⟩

/-- The world after `rollback(exBlockEmpty)` in `exWorldEmpty`. -/
def exWorldEmptyAfter : World (List String) :=
  ⟨rollbackLog, [], [], [exPrev], [exBlockEmpty], [exPrev]⟩

/-- The world after a second `rollback(exBlockEmpty)`, in `exWorldEmptyAfter`. -/
def exWorldEmptyAgain : World (List String) :=
  ⟨rollbackLog ++ rollbackLog, [], [], [exPrev], [exBlockEmpty, exBlockEmpty], [exPrev]⟩

/-- Example decoders: a payload decodes to the transaction whose hash is its first number. -/
def exDecoders : Decoders where
  fundsTx := fun payload => some ⟨payload.headD 0, 0⟩
  accTx := fun _ => none
  configTx := fun _ => none
  stakeTx := fun _ => none
  aggTx := fun _ => none

/-- The payload of a transaction under `exDecoders`. -/
def exEncode (t : FundsTx) : List Nat := [t.Hash]

/-- The funds transactions with the hashes 1 to `n`. -/
def exTxs (n : Nat) : List FundsTx := (List.range n).map (fun i => ⟨i + 1, 0⟩)

/-- A state whose stash already holds the transaction with hash 5. -/
def exStashed : MinerInterface := ⟨[⟨5, 0⟩], [], [], [], [], []⟩

/-- Example peers: 1 and 2 are miners at the address 10.0.0.1:8000 on different
connections, 3 is a miner at 10.0.0.2:8000, every other pointer is a client. -/
def exHeap : PeerRef → peer
  | 1 => ⟨"10.0.0.1:5000", "8000", 11, 1⟩
  | 2 => ⟨"10.0.0.1:5001", "8000", 22, 1⟩
  | 3 => ⟨"10.0.0.2:6000", "8000", 33, 1⟩
  | _ => ⟨"10.0.0.3:7000", "9000", 44, 2⟩

/-- An example registry: the miner 3 and the client 4. -/
def exNetwork : Network :=
  ⟨exHeap, ⟨⟨[3], List.nodup_singleton 3⟩, ⟨[4], List.nodup_singleton 4⟩⟩, []⟩

/-- An example `isConnectionAlreadyInSendingMap` that never finds the connection. -/
def exCheck : SendingMapCheck := fun _ _ _ => (false, false)

/-- A block listing the account transaction 4, the funds transaction 5 and one aggregate,
7, which wraps the funds transaction 6. -/
def exBlockMixed : Block := ⟨2, 1, 9, 1, [4], [5], [], [], [7], []⟩

/-- A world whose closed storage holds every transaction of `exBlockMixed` and the funds
transaction its aggregate wraps; open storage is empty. -/
def exWorldMixed : World (List String) :=
  ⟨[], [], [.accTx ⟨4, 0⟩, .fundsTx ⟨5, 0⟩, .fundsTx ⟨6, 0⟩, .aggSenderTx ⟨7, [6], 0⟩],
    [exPrev, exBlockMixed], [], [exBlockMixed]⟩

/-- The world after `rollback(exBlockMixed)` in `exWorldMixed`. -/
def exWorldMixedAfter : World (List String) :=
  ⟨rollbackLog, [.fundsTx ⟨6, 0⟩, .fundsTx ⟨5, 0⟩, .accTx ⟨4, 0⟩], [], [exPrev], [exBlockMixed],
    [exPrev]⟩

/-! ## Vocabulary of the properties -/

/-- The hashes `preValidateRollback` looks up: the sequences of the block for account,
funds, config, stake and aggregated-sender transactions, in the order of the loops. -/
def fetchedHashes (b : Block) : List Hash32 :=
  b.AccTxData ++ b.FundsTxData ++ b.ConfigTxData ++ b.StakeTxData ++ b.AggSenderTxData

/-- Every closed entry found under a hash of `hashes` passes the type assertion `assert`. -/
def kindAsExpected {Env α : Type} (assert : Transaction → Option α) (w : World Env)
    (hashes : List Hash32) : Bool :=
  hashes.all (fun h =>
    match ReadClosedTx h w with
    | none => true
    | some tx => (assert tx).isSome)

/-- Each closed entry has the kind its list expects: an entry stored under a hash of
`b.AccTxData` is an account transaction, and so on for the five fetched sequences. -/
def kindsAsExpected {Env : Type} (b : Block) (w : World Env) : Bool :=
  kindAsExpected asAccTx w b.AccTxData && kindAsExpected asFundsTx w b.FundsTxData &&
  kindAsExpected asConfigTx w b.ConfigTxData && kindAsExpected asStakeTx w b.StakeTxData &&
  kindAsExpected asAggSenderTx w b.AggSenderTxData

/-- The call `rollback(b)` returns a non-nil error and leaves the world `w1`. -/
def rollbackFails {Env : Type} (P : Primitives Env) (cap : Nat) (b : Block) (w w1 : World Env) :
    Prop :=
  ∃ msg, rollback P cap b w = .returned (some msg) w1

/-- The call `rollback(b)` succeeds (returns nil) and leaves the world `w1`. -/
def rollbackSucceeds {Env : Type} (P : Primitives Env) (cap : Nat) (b : Block)
    (w w1 : World Env) : Prop :=
  rollback P cap b w = .returned none w1

/-- What a run of store writes may do: `w1` comes from `w` by writing transactions
whose hash satisfies `R` to open storage and by deleting closed entries; nothing else
of the world changes. -/
structure Reopens {Env : Type} (R : Hash32 → Prop) (w w1 : World Env) : Prop where
  open_mono : ∀ h, inOpen h w = true → inOpen h w1 = true
  closed_anti : ∀ h, inClosed h w1 = true → inClosed h w = true
  open_bound : ∀ h, inOpen h w1 = true → inOpen h w = true ∨ R h
  env_eq : w1.env = w.env
  closedBlocks_eq : w1.closedBlocks = w.closedBlocks
  receivedStash_eq : w1.receivedStash = w.receivedStash
  lastClosedBlock_eq : w1.lastClosedBlock = w.lastClosedBlock

/-- A hash is reopened in `w`: present in open storage and absent from closed storage. -/
def reopened {Env : Type} (h : Hash32) (w : World Env) : Prop :=
  inOpen h w = true ∧ inClosed h w = false

/-- The hashes of the block whose transactions `postValidateRollback` writes back to open
storage under their own entry: the account, funds, config and stake sequences. -/
def plainHashes (b : Block) : List Hash32 :=
  b.AccTxData ++ b.FundsTxData ++ b.ConfigTxData ++ b.StakeTxData

/-- What a successful `rollback(b)` from `w` to `w2` has done to the ledger store, `pre`
being the slices fetched by the pre-validation. -/
structure RollbackFacts {Env : Type} (cap : Nat) (b : Block) (pre : PreValidated)
    (w w2 : World Env) : Prop where
  pre_some : preValidateRollback b w = some pre
  pre_err : pre.err = none
  open_mono : ∀ h, inOpen h w = true → inOpen h w2 = true
  closed_anti : ∀ h, inClosed h w2 = true → inClosed h w = true
  open_bound : ∀ h, inOpen h w2 = true →
    inOpen h w = true ∨ h ∈ plainHashes b ∨ ∃ a ∈ pre.aggSenderTxSlice, h ∈ a.AggregatedTxSlice
  plain : ∀ h ∈ plainHashes b, reopened h w2
  aggs : ∀ a ∈ pre.aggSenderTxSlice,
    inClosed a.Hash w2 = false ∧ ∀ h ∈ a.AggregatedTxSlice, reopened h w2
  closedBlocks_eq : w2.closedBlocks = w.closedBlocks.filter (fun x => x.Hash != b.Hash)
  receivedStash_eq : w2.receivedStash =
    (w.receivedStash ++ [b]).drop ((w.receivedStash ++ [b]).length - cap)
  lastClosedBlock_eq : ∃ prev, ReadClosedBlock b.PrevHash w2 = some prev ∧
    w2.lastClosedBlock = [prev]

/-- The aggregate `a` is listed in the block `b`: it is the closed entry stored under a
hash of `b.AggSenderTxData`, the one `preValidateRollback` fetches for that hash. -/
def listedAggregate {Env : Type} (b : Block) (w : World Env) (a : AggSenderTx) : Prop :=
  ∃ g ∈ b.AggSenderTxData, ReadClosedTx g w = some (.aggSenderTx a)

/-- The transactions `ts` delivered one after the other as `FUNDSTX_RES` responses from
peer `p`, each with the payload `enc` gives it. -/
def deliveries (p : PeerRef) (enc : FundsTx → List Nat) (ts : List FundsTx) : List Call :=
  ts.map (fun t => ⟨p, some (enc t), FUNDSTX_RES⟩)

/-- One call on the registry: `peers.add(p)` or `peers.delete(p)`. -/
inductive RegistryCall where
  | add (p : PeerRef)
  | delete (p : PeerRef)
deriving DecidableEq, Repr

/-- The effect of one registry call. -/
def RegistryCall.run (check : SendingMapCheck) : RegistryCall → Network → Network
  | .add p, n => Bazo.add check p n
  | .delete p, n => Bazo.delete p n

/-- A sequence of registry calls, one after the other. -/
def runCalls (check : SendingMapCheck) (calls : List RegistryCall) (n : Network) : Network :=
  calls.foldl (fun n c => c.run check n) n

/-- The empty registry: both maps freshly made, over the peer records `heap` and the
sending map `sendingMap`. -/
def emptyRegistry (heap : PeerRef → peer)
    (sendingMap : List (String × delayedMessagesPerSender)) : Network :=
  ⟨heap, ⟨PeerMap.empty, PeerMap.empty⟩, sendingMap⟩

/-- Every key of the miner map is a peer of type miner and every key of the client map a
peer of type client. -/
def typedRegistry (n : Network) : Prop :=
  (∀ p ∈ n.peers.minerConns.keys, (n.heap p).peerType = PEERTYPE_MINER) ∧
  (∀ p ∈ n.peers.clientConns.keys, (n.heap p).peerType = PEERTYPE_CLIENT)

/-- Every hash wrapped by an aggregate listed in `b` resolves, where closed storage has an
entry under it, to a funds transaction: the closed entries have the kind the
`AggregatedTxSlice` of a listed aggregate expects. -/
def wrappedKindsAsExpected {Env : Type} (b : Block) (w : World Env) : Bool :=
  b.AggSenderTxData.all (fun g =>
    match ReadClosedTx g w with
    | some (.aggSenderTx c) => kindAsExpected asFundsTx w c.AggregatedTxSlice
    | _ => true)

/-! ## Properties of the ledger store -/

section Store

variable {Env : Type}

theorem inOpen_iff (h : Hash32) (w : World Env) :
    inOpen h w = true ↔ ∃ tx ∈ w.openTxs, tx.Hash = h := by
  simp [inOpen, List.any_eq_true]

theorem inClosed_iff (h : Hash32) (w : World Env) :
    inClosed h w = true ↔ ∃ tx ∈ w.closedTxs, tx.Hash = h := by
  simp [inClosed, ReadClosedTx, List.find?_isSome]

theorem ReadClosedTx_hash {h : Hash32} {w : World Env} {tx : Transaction}
    (hr : ReadClosedTx h w = some tx) : tx.Hash = h := by
  have := List.find?_some hr
  simpa using this

theorem ReadClosedTx_inClosed {h : Hash32} {w : World Env} {tx : Transaction}
    (hr : ReadClosedTx h w = some tx) : inClosed h w = true := by
  simp [inClosed, hr]

theorem ReadClosedTx_none_iff (h : Hash32) (w : World Env) :
    ReadClosedTx h w = none ↔ inClosed h w = false := by
  unfold inClosed
  cases ReadClosedTx h w <;> simp

theorem inOpen_WriteOpenTx (h : Hash32) (tx : Transaction) (w : World Env) :
    inOpen h (WriteOpenTx tx w) = true ↔ h = tx.Hash ∨ inOpen h w = true := by
  rw [inOpen_iff, inOpen_iff]
  simp only [WriteOpenTx, List.mem_cons, List.mem_filter, bne_iff_ne, ne_eq]
  constructor
  · rintro ⟨t, ht | ⟨ht, _⟩, rfl⟩
    · exact Or.inl (by rw [ht])
    · exact Or.inr ⟨t, ht, rfl⟩
  · rintro (rfl | ⟨t, ht, rfl⟩)
    · exact ⟨tx, Or.inl rfl, rfl⟩
    · by_cases hc : t.Hash = tx.Hash
      · exact ⟨tx, Or.inl rfl, hc.symm⟩
      · exact ⟨t, Or.inr ⟨ht, hc⟩, rfl⟩

theorem inClosed_DeleteClosedTx (h : Hash32) (tx : Transaction) (w : World Env) :
    inClosed h (DeleteClosedTx tx w) = true ↔ h ≠ tx.Hash ∧ inClosed h w = true := by
  rw [inClosed_iff, inClosed_iff]
  simp only [DeleteClosedTx, List.mem_filter, bne_iff_ne, ne_eq]
  constructor
  · rintro ⟨t, ⟨ht, hne⟩, rfl⟩
    exact ⟨hne, t, ht, rfl⟩
  · rintro ⟨hne, t, ht, rfl⟩
    exact ⟨t, ⟨ht, hne⟩, rfl⟩

theorem Reopens.refl (R : Hash32 → Prop) (w : World Env) : Reopens R w w :=
  ⟨fun _ h => h, fun _ h => h, fun _ h => Or.inl h, rfl, rfl, rfl, rfl⟩

theorem Reopens.trans {R : Hash32 → Prop} {w w1 w2 : World Env}
    (a : Reopens R w w1) (b : Reopens R w1 w2) : Reopens R w w2 where
  open_mono h hh := b.open_mono h (a.open_mono h hh)
  closed_anti h hh := a.closed_anti h (b.closed_anti h hh)
  open_bound h hh := by
    rcases b.open_bound h hh with h1 | h1
    · exact a.open_bound h h1
    · exact Or.inr h1
  env_eq := b.env_eq.trans a.env_eq
  closedBlocks_eq := b.closedBlocks_eq.trans a.closedBlocks_eq
  receivedStash_eq := b.receivedStash_eq.trans a.receivedStash_eq
  lastClosedBlock_eq := b.lastClosedBlock_eq.trans a.lastClosedBlock_eq

theorem Reopens.weaken {R S : Hash32 → Prop} {w w1 : World Env} (a : Reopens R w w1)
    (hRS : ∀ h, R h → S h) : Reopens S w w1 :=
  { a with open_bound := fun h hh => (a.open_bound h hh).imp_right (hRS h) }

theorem Reopens.reopenTx (R : Hash32 → Prop) (tx : Transaction) (w : World Env)
    (hR : R tx.Hash) : Reopens R w (reopenTx tx w) where
  open_mono h hh := by
    have : inOpen h (WriteOpenTx tx w) = true := (inOpen_WriteOpenTx h tx w).2 (Or.inr hh)
    simpa [inOpen, Bazo.reopenTx, DeleteClosedTx] using this
  closed_anti h hh := by
    have h1 := (inClosed_DeleteClosedTx h tx (WriteOpenTx tx w)).1 hh
    simpa [inClosed, ReadClosedTx, WriteOpenTx] using h1.2
  open_bound h hh := by
    have h1 : inOpen h (WriteOpenTx tx w) = true := by
      simpa [inOpen, Bazo.reopenTx, DeleteClosedTx] using hh
    rcases (inOpen_WriteOpenTx h tx w).1 h1 with h2 | h2
    · exact Or.inr (h2 ▸ hR)
    · exact Or.inl h2
  env_eq := rfl
  closedBlocks_eq := rfl
  receivedStash_eq := rfl
  lastClosedBlock_eq := rfl

theorem Reopens.deleteClosedTx (R : Hash32 → Prop) (tx : Transaction) (w : World Env) :
    Reopens R w (DeleteClosedTx tx w) where
  open_mono h hh := by simpa [inOpen, DeleteClosedTx] using hh
  closed_anti h hh := ((inClosed_DeleteClosedTx h tx w).1 hh).2
  open_bound h hh := Or.inl (by simpa [inOpen, DeleteClosedTx] using hh)
  env_eq := rfl
  closedBlocks_eq := rfl
  receivedStash_eq := rfl
  lastClosedBlock_eq := rfl

theorem reopened_reopenTx (tx : Transaction) (w : World Env) :
    reopened tx.Hash (reopenTx tx w) := by
  constructor
  · have : inOpen tx.Hash (WriteOpenTx tx w) = true :=
      (inOpen_WriteOpenTx _ tx w).2 (Or.inl rfl)
    simpa [inOpen, Bazo.reopenTx, DeleteClosedTx] using this
  · cases hc : inClosed tx.Hash (reopenTx tx w) with
    | false => rfl
    | true => exact absurd rfl ((inClosed_DeleteClosedTx _ tx (WriteOpenTx tx w)).1 hc).1

theorem inClosed_DeleteClosedTx_self (tx : Transaction) (w : World Env) :
    inClosed tx.Hash (DeleteClosedTx tx w) = false := by
  cases hc : inClosed tx.Hash (DeleteClosedTx tx w) with
  | false => rfl
  | true => exact absurd rfl ((inClosed_DeleteClosedTx _ tx w).1 hc).1

theorem Reopens.closed_false {R : Hash32 → Prop} {w w1 : World Env} (a : Reopens R w w1)
    {h : Hash32} (hc : inClosed h w = false) : inClosed h w1 = false := by
  cases h1 : inClosed h w1 with
  | false => rfl
  | true => rw [a.closed_anti h h1] at hc; exact absurd hc (by decide)

theorem Reopens.reopened {R : Hash32 → Prop} {w w1 : World Env} (a : Reopens R w w1)
    {h : Hash32} (hr : reopened h w) : reopened h w1 :=
  ⟨a.open_mono h hr.1, a.closed_false hr.2⟩

/-! ## Properties of `preValidateRollback` -/

theorem fetchClosed_found {α : Type} (assert : Transaction → Option α) (inj : α → Transaction)
    (hinj : ∀ tx t, assert tx = some t → tx = inj t) (w : World Env) :
    ∀ (hashes : List Hash32) (slice : List α), fetchClosed assert w hashes = .found slice →
      slice.map (fun t => (inj t).Hash) = hashes ∧
      ∀ t ∈ slice, ReadClosedTx (inj t).Hash w = some (inj t)
  | [], slice, hf => by
    simp only [fetchClosed, Fetch.found.injEq] at hf
    subst hf
    simp
  | h :: rest, slice, hf => by
    unfold fetchClosed at hf
    cases hr : ReadClosedTx h w with
    | none => simp [hr] at hf
    | some tx =>
      cases ha : assert tx with
      | none => simp [hr, ha] at hf
      | some t =>
        cases hrest : fetchClosed assert w rest with
        | missing => simp [hr, ha, hrest] at hf
        | badKind => simp [hr, ha, hrest] at hf
        | found sl =>
          simp only [hr, ha, hrest, Fetch.found.injEq] at hf
          subst hf
          have ih := fetchClosed_found assert inj hinj w rest sl hrest
          have htx : tx = inj t := hinj tx t ha
          have hh : (inj t).Hash = h := htx ▸ ReadClosedTx_hash hr
          refine ⟨by simp [hh, ih.1], ?_⟩
          intro u hu
          rcases List.mem_cons.1 hu with rfl | hu
          · rw [hh, hr, htx]
          · exact ih.2 u hu

theorem fetchClosed_found_inClosed {α : Type} (assert : Transaction → Option α) (w : World Env) :
    ∀ (hashes : List Hash32) (slice : List α), fetchClosed assert w hashes = .found slice →
      ∀ h ∈ hashes, inClosed h w = true
  | [], _, _ => by simp
  | h :: rest, slice, hf => by
    unfold fetchClosed at hf
    cases hr : ReadClosedTx h w with
    | none => simp [hr] at hf
    | some tx =>
      cases ha : assert tx with
      | none => simp [hr, ha] at hf
      | some t =>
        cases hrest : fetchClosed assert w rest with
        | missing => simp [hr, ha, hrest] at hf
        | badKind => simp [hr, ha, hrest] at hf
        | found sl =>
          intro g hg
          rcases List.mem_cons.1 hg with rfl | hg
          · exact ReadClosedTx_inClosed hr
          · exact fetchClosed_found_inClosed assert w rest sl hrest g hg

theorem fetchClosed_missing {α : Type} (assert : Transaction → Option α) (w : World Env) :
    ∀ (hashes : List Hash32), fetchClosed assert w hashes = .missing →
      ∃ h ∈ hashes, inClosed h w = false
  | [], hf => by simp [fetchClosed] at hf
  | h :: rest, hf => by
    unfold fetchClosed at hf
    cases hr : ReadClosedTx h w with
    | none => exact ⟨h, List.mem_cons_self _ _, (ReadClosedTx_none_iff h w).1 hr⟩
    | some tx =>
      cases ha : assert tx with
      | none => simp [hr, ha] at hf
      | some t =>
        cases hrest : fetchClosed assert w rest with
        | found sl => simp [hr, ha, hrest] at hf
        | badKind => simp [hr, ha, hrest] at hf
        | missing =>
          obtain ⟨g, hg, hc⟩ := fetchClosed_missing assert w rest hrest
          exact ⟨g, List.mem_cons_of_mem _ hg, hc⟩

theorem fetchClosed_not_badKind {α : Type} (assert : Transaction → Option α) (w : World Env) :
    ∀ (hashes : List Hash32), kindAsExpected assert w hashes = true →
      fetchClosed assert w hashes ≠ .badKind
  | [], _ => by simp [fetchClosed]
  | h :: rest, hk => by
    simp only [kindAsExpected, List.all_cons, Bool.and_eq_true] at hk
    have ih := fetchClosed_not_badKind assert w rest hk.2
    unfold fetchClosed
    cases hr : ReadClosedTx h w with
    | none => simp
    | some tx =>
      have h1 := hk.1
      simp only [hr] at h1
      cases ha : assert tx with
      | none => simp [ha] at h1
      | some t =>
        cases hrest : fetchClosed assert w rest with
        | found sl => simp [ha]
        | missing => simp [ha]
        | badKind => exact absurd hrest ih

theorem fetchClosed_all_absent {α : Type} (assert : Transaction → Option α) (w : World Env)
    (hashes : List Hash32) (habs : ∀ h ∈ hashes, inClosed h w = false) :
    fetchClosed assert w hashes = (if hashes = [] then .found [] else .missing) := by
  cases hashes with
  | nil => simp [fetchClosed]
  | cons h rest =>
    have hr : ReadClosedTx h w = none :=
      (ReadClosedTx_none_iff h w).2 (habs h (List.mem_cons_self _ _))
    simp [fetchClosed, hr]

theorem asAccTx_inj (tx : Transaction) (t : AccTx) (h : asAccTx tx = some t) : tx = .accTx t := by
  cases tx <;> simp [asAccTx] at h
  rw [h]

theorem asFundsTx_inj (tx : Transaction) (t : FundsTx) (h : asFundsTx tx = some t) :
    tx = .fundsTx t := by
  cases tx <;> simp [asFundsTx] at h
  rw [h]

theorem asConfigTx_inj (tx : Transaction) (t : ConfigTx) (h : asConfigTx tx = some t) :
    tx = .configTx t := by
  cases tx <;> simp [asConfigTx] at h
  rw [h]

theorem asStakeTx_inj (tx : Transaction) (t : StakeTx) (h : asStakeTx tx = some t) :
    tx = .stakeTx t := by
  cases tx <;> simp [asStakeTx] at h
  rw [h]

theorem asAggSenderTx_inj (tx : Transaction) (t : AggSenderTx) (h : asAggSenderTx tx = some t) :
    tx = .aggSenderTx t := by
  cases tx <;> simp [asAggSenderTx] at h
  rw [h]

theorem preValidateRollback_ok {b : Block} {w : World Env} {pre : PreValidated}
    (h : preValidateRollback b w = some pre) (he : pre.err = none) :
    fetchClosed asAccTx w b.AccTxData = .found pre.accTxSlice ∧
    fetchClosed asFundsTx w b.FundsTxData = .found pre.fundsTxSlice ∧
    fetchClosed asConfigTx w b.ConfigTxData = .found pre.configTxSlice ∧
    fetchClosed asStakeTx w b.StakeTxData = .found pre.stakeTxSlice ∧
    fetchClosed asAggSenderTx w b.AggSenderTxData = .found pre.aggSenderTxSlice ∧
    pre.aggReceiverTxSlice = [] := by
  unfold preValidateRollback at h
  cases h1 : fetchClosed asAccTx w b.AccTxData with
  | badKind => simp [h1] at h
  | missing => simp [h1] at h; subst h; simp [preValidateError] at he
  | found s1 =>
  cases h2 : fetchClosed asFundsTx w b.FundsTxData with
  | badKind => simp [h1, h2] at h
  | missing => simp [h1, h2] at h; subst h; simp [preValidateError] at he
  | found s2 =>
  cases h3 : fetchClosed asConfigTx w b.ConfigTxData with
  | badKind => simp [h1, h2, h3] at h
  | missing => simp [h1, h2, h3] at h; subst h; simp [preValidateError] at he
  | found s3 =>
  cases h4 : fetchClosed asStakeTx w b.StakeTxData with
  | badKind => simp [h1, h2, h3, h4] at h
  | missing => simp [h1, h2, h3, h4] at h; subst h; simp [preValidateError] at he
  | found s4 =>
  cases h5 : fetchClosed asAggSenderTx w b.AggSenderTxData with
  | badKind => simp [h1, h2, h3, h4, h5] at h
  | missing => simp [h1, h2, h3, h4, h5] at h; subst h; simp [preValidateError] at he
  | found s5 =>
    simp [h1, h2, h3, h4, h5] at h
    subst h
    simp

theorem preValidateRollback_err {b : Block} {w : World Env} {pre : PreValidated} {msg : String}
    (h : preValidateRollback b w = some pre) (he : pre.err = some msg) :
    ∃ g ∈ fetchedHashes b, inClosed g w = false := by
  unfold preValidateRollback at h
  have key : ∀ {α : Type} (assert : Transaction → Option α) (hashes : List Hash32),
      fetchClosed assert w hashes = .missing → hashes ⊆ fetchedHashes b →
      ∃ g ∈ fetchedHashes b, inClosed g w = false := by
    intro α assert hashes hm hsub
    obtain ⟨g, hg, hc⟩ := fetchClosed_missing assert w hashes hm
    exact ⟨g, hsub hg, hc⟩
  cases h1 : fetchClosed asAccTx w b.AccTxData with
  | badKind => simp [h1] at h
  | missing => exact key _ _ h1 (by intro x hx; simp [fetchedHashes, hx])
  | found s1 =>
  cases h2 : fetchClosed asFundsTx w b.FundsTxData with
  | badKind => simp [h1, h2] at h
  | missing => exact key _ _ h2 (by intro x hx; simp [fetchedHashes, hx])
  | found s2 =>
  cases h3 : fetchClosed asConfigTx w b.ConfigTxData with
  | badKind => simp [h1, h2, h3] at h
  | missing => exact key _ _ h3 (by intro x hx; simp [fetchedHashes, hx])
  | found s3 =>
  cases h4 : fetchClosed asStakeTx w b.StakeTxData with
  | badKind => simp [h1, h2, h3, h4] at h
  | missing => exact key _ _ h4 (by intro x hx; simp [fetchedHashes, hx])
  | found s4 =>
  cases h5 : fetchClosed asAggSenderTx w b.AggSenderTxData with
  | badKind => simp [h1, h2, h3, h4, h5] at h
  | missing => exact key _ _ h5 (by intro x hx; simp [fetchedHashes, hx])
  | found s5 =>
    simp [h1, h2, h3, h4, h5] at h
    subst h
    simp at he

theorem preValidateRollback_ok_inClosed {b : Block} {w : World Env} {pre : PreValidated}
    (h : preValidateRollback b w = some pre) (he : pre.err = none) :
    ∀ g ∈ fetchedHashes b, inClosed g w = true := by
  obtain ⟨h1, h2, h3, h4, h5, _⟩ := preValidateRollback_ok h he
  intro g hg
  simp only [fetchedHashes, List.mem_append] at hg
  rcases hg with (((hg | hg) | hg) | hg) | hg
  · exact fetchClosed_found_inClosed _ w _ _ h1 g hg
  · exact fetchClosed_found_inClosed _ w _ _ h2 g hg
  · exact fetchClosed_found_inClosed _ w _ _ h3 g hg
  · exact fetchClosed_found_inClosed _ w _ _ h4 g hg
  · exact fetchClosed_found_inClosed _ w _ _ h5 g hg

theorem preValidateRollback_isSome_of_kinds {b : Block} {w : World Env}
    (hk : kindsAsExpected b w = true) : ∃ pre, preValidateRollback b w = some pre := by
  simp only [kindsAsExpected, Bool.and_eq_true] at hk
  obtain ⟨⟨⟨⟨k1, k2⟩, k3⟩, k4⟩, k5⟩ := hk
  have n1 := fetchClosed_not_badKind asAccTx w _ k1
  have n2 := fetchClosed_not_badKind asFundsTx w _ k2
  have n3 := fetchClosed_not_badKind asConfigTx w _ k3
  have n4 := fetchClosed_not_badKind asStakeTx w _ k4
  have n5 := fetchClosed_not_badKind asAggSenderTx w _ k5
  unfold preValidateRollback
  cases h1 : fetchClosed asAccTx w b.AccTxData with
  | badKind => exact absurd h1 n1
  | missing => exact ⟨_, rfl⟩
  | found s1 =>
  cases h2 : fetchClosed asFundsTx w b.FundsTxData with
  | badKind => exact absurd h2 n2
  | missing => exact ⟨_, rfl⟩
  | found s2 =>
  cases h3 : fetchClosed asConfigTx w b.ConfigTxData with
  | badKind => exact absurd h3 n3
  | missing => exact ⟨_, rfl⟩
  | found s3 =>
  cases h4 : fetchClosed asStakeTx w b.StakeTxData with
  | badKind => exact absurd h4 n4
  | missing => exact ⟨_, rfl⟩
  | found s4 =>
  cases h5 : fetchClosed asAggSenderTx w b.AggSenderTxData with
  | badKind => exact absurd h5 n5
  | missing => exact ⟨_, rfl⟩
  | found s5 => exact ⟨_, rfl⟩

theorem preValidateRollback_all_absent {b : Block} {w : World Env}
    (habs : ∀ g ∈ fetchedHashes b, inClosed g w = false) (hne : fetchedHashes b ≠ []) :
    ∃ pre msg, preValidateRollback b w = some pre ∧ pre.err = some msg := by
  have a1 := fetchClosed_all_absent asAccTx w b.AccTxData
    (fun g hg => habs g (by simp [fetchedHashes, hg]))
  have a2 := fetchClosed_all_absent asFundsTx w b.FundsTxData
    (fun g hg => habs g (by simp [fetchedHashes, hg]))
  have a3 := fetchClosed_all_absent asConfigTx w b.ConfigTxData
    (fun g hg => habs g (by simp [fetchedHashes, hg]))
  have a4 := fetchClosed_all_absent asStakeTx w b.StakeTxData
    (fun g hg => habs g (by simp [fetchedHashes, hg]))
  have a5 := fetchClosed_all_absent asAggSenderTx w b.AggSenderTxData
    (fun g hg => habs g (by simp [fetchedHashes, hg]))
  unfold preValidateRollback
  rw [a1]
  by_cases e1 : b.AccTxData = []
  · rw [if_pos e1, a2]
    by_cases e2 : b.FundsTxData = []
    · rw [if_pos e2, a3]
      by_cases e3 : b.ConfigTxData = []
      · rw [if_pos e3, a4]
        by_cases e4 : b.StakeTxData = []
        · rw [if_pos e4, a5]
          by_cases e5 : b.AggSenderTxData = []
          · exact absurd (by simp [fetchedHashes, e1, e2, e3, e4, e5]) hne
          · rw [if_neg e5]; exact ⟨_, _, rfl, rfl⟩
        · rw [if_neg e4]; exact ⟨_, _, rfl, rfl⟩
      · rw [if_neg e3]; exact ⟨_, _, rfl, rfl⟩
    · rw [if_neg e2]; exact ⟨_, _, rfl, rfl⟩
  · rw [if_neg e1]; exact ⟨_, _, rfl, rfl⟩

/-! ## Properties of `postValidateRollback` -/

theorem foldl_reopenTx {α : Type} (inj : α → Transaction) (R : Hash32 → Prop) :
    ∀ (slice : List α) (w : World Env), (∀ t ∈ slice, R (inj t).Hash) →
      Reopens R w (slice.foldl (fun w tx => reopenTx (inj tx) w) w) ∧
      ∀ t ∈ slice, reopened (inj t).Hash (slice.foldl (fun w tx => reopenTx (inj tx) w) w)
  | [], w, _ => ⟨Reopens.refl R w, by simp⟩
  | t :: rest, w, hR => by
    have ih := foldl_reopenTx inj R rest (reopenTx (inj t) w)
      (fun u hu => hR u (List.mem_cons_of_mem _ hu))
    have step := Reopens.reopenTx R (inj t) w (hR t (List.mem_cons_self _ _))
    rw [List.foldl_cons]
    refine ⟨step.trans ih.1, ?_⟩
    intro u hu
    rcases List.mem_cons.1 hu with rfl | hu
    · exact ih.1.reopened (reopened_reopenTx (inj u) w)
    · exact ih.2 u hu

theorem reopenAggregated_some (R : Hash32 → Prop) :
    ∀ (hashes : List Hash32) (w w1 : World Env), reopenAggregated hashes w = some w1 →
      (∀ h ∈ hashes, R h) → Reopens R w w1 ∧ ∀ h ∈ hashes, reopened h w1
  | [], w, w1, hs, _ => by
    simp only [reopenAggregated, Option.some.injEq] at hs
    subst hs
    exact ⟨Reopens.refl R w, by simp⟩
  | h :: rest, w, w1, hs, hR => by
    unfold reopenAggregated at hs
    cases hr : ReadClosedTx h w with
    | none => simp [hr] at hs
    | some trx =>
      simp only [hr] at hs
      have hh : trx.Hash = h := ReadClosedTx_hash hr
      have ih := reopenAggregated_some R rest (reopenTx trx w) w1 hs
        (fun g hg => hR g (List.mem_cons_of_mem _ hg))
      have step := Reopens.reopenTx R trx w (hh ▸ hR h (List.mem_cons_self _ _))
      refine ⟨step.trans ih.1, ?_⟩
      intro g hg
      rcases List.mem_cons.1 hg with rfl | hg
      · exact ih.1.reopened (hh ▸ reopened_reopenTx trx w)
      · exact ih.2 g hg

theorem rollbackAggSenders_some (R : Hash32 → Prop) :
    ∀ (slice : List AggSenderTx) (w w1 : World Env), rollbackAggSenders slice w = some w1 →
      (∀ a ∈ slice, ∀ h ∈ a.AggregatedTxSlice, R h) →
      Reopens R w w1 ∧
      ∀ a ∈ slice, inClosed a.Hash w1 = false ∧ ∀ h ∈ a.AggregatedTxSlice, reopened h w1
  | [], w, w1, hs, _ => by
    simp only [rollbackAggSenders, Option.some.injEq] at hs
    subst hs
    exact ⟨Reopens.refl R w, by simp⟩
  | a :: rest, w, w1, hs, hR => by
    unfold rollbackAggSenders at hs
    cases hr : reopenAggregated a.AggregatedTxSlice w with
    | none => simp [hr] at hs
    | some wa =>
      simp only [hr] at hs
      have inner := reopenAggregated_some R a.AggregatedTxSlice w wa hr
        (hR a (List.mem_cons_self _ _))
      have del := Reopens.deleteClosedTx R (.aggSenderTx a) wa
      have ih := rollbackAggSenders_some R rest (DeleteClosedTx (.aggSenderTx a) wa) w1 hs
        (fun c hc => hR c (List.mem_cons_of_mem _ hc))
      refine ⟨(inner.1.trans del).trans ih.1, ?_⟩
      intro c hc
      rcases List.mem_cons.1 hc with rfl | hc
      · refine ⟨ih.1.closed_false (inClosed_DeleteClosedTx_self (.aggSenderTx c) wa), ?_⟩
        intro h hh
        exact ih.1.reopened (del.reopened (inner.2 h hh))
      · exact ih.2 c hc

theorem onEnv_some {f : Env → Option Env} {w w1 : World Env} (h : onEnv f w = some w1) :
    ∃ e, w1 = { w with env := e } := by
  simp only [onEnv, Option.map_eq_some'] at h
  obtain ⟨e, _, rfl⟩ := h
  exact ⟨e, rfl⟩

theorem validateStateRollback_some {P : Primitives Env} {data : blockData} {w w1 : World Env}
    (h : validateStateRollback P data w = some w1) : ∃ e, w1 = { w with env := e } := by
  simp only [validateStateRollback, Option.bind_eq_bind, Option.bind_eq_some] at h
  obtain ⟨a1, h1, a2, h2, a3, h3, a4, h4, a5, h5, a6, h6, a7, h7, h8⟩ := h
  obtain ⟨e1, rfl⟩ := onEnv_some h1
  obtain ⟨e2, rfl⟩ := onEnv_some h2
  obtain ⟨e3, rfl⟩ := onEnv_some h3
  obtain ⟨e4, rfl⟩ := onEnv_some h4
  obtain ⟨e5, rfl⟩ := onEnv_some h5
  obtain ⟨e6, rfl⟩ := onEnv_some h6
  obtain ⟨e7, rfl⟩ := onEnv_some h7
  obtain ⟨e8, rfl⟩ := onEnv_some h8
  exact ⟨e8, rfl⟩

theorem inOpen_congr {w w1 : World Env} (h : w1.openTxs = w.openTxs) (g : Hash32) :
    inOpen g w1 = inOpen g w := by
  simp [inOpen, h]

theorem inClosed_congr {w w1 : World Env} (h : w1.closedTxs = w.closedTxs) (g : Hash32) :
    inClosed g w1 = inClosed g w := by
  simp [inClosed, ReadClosedTx, h]

theorem reopened_congr {w w1 : World Env} (ho : w1.openTxs = w.openTxs)
    (hc : w1.closedTxs = w.closedTxs) {g : Hash32} (h : reopened g w) : reopened g w1 :=
  ⟨(inOpen_congr ho g).trans h.1, (inClosed_congr hc g).trans h.2⟩

/-- The effect of a successful `postValidateRollback` on the ledger store. -/
theorem postValidateRollback_some {P : Primitives Env} {cap : Nat} {data : blockData}
    {w w2 : World Env} (R : Hash32 → Prop)
    (hacc : ∀ t ∈ data.accTxSlice, R t.Hash) (hfunds : ∀ t ∈ data.fundsTxSlice, R t.Hash)
    (hconfig : ∀ t ∈ data.configTxSlice, R t.Hash) (hstake : ∀ t ∈ data.stakeTxSlice, R t.Hash)
    (hagg : ∀ a ∈ data.aggSenderTxSlice, ∀ h ∈ a.AggregatedTxSlice, R h)
    (h : postValidateRollback P cap data w = some w2) :
    ∃ wt : World Env, Reopens R w wt ∧ w2.openTxs = wt.openTxs ∧ w2.closedTxs = wt.closedTxs ∧
      (∀ t ∈ data.accTxSlice, reopened t.Hash wt) ∧
      (∀ t ∈ data.fundsTxSlice, reopened t.Hash wt) ∧
      (∀ t ∈ data.configTxSlice, reopened t.Hash wt) ∧
      (∀ t ∈ data.stakeTxSlice, reopened t.Hash wt) ∧
      (∀ a ∈ data.aggSenderTxSlice,
        inClosed a.Hash wt = false ∧ ∀ h ∈ a.AggregatedTxSlice, reopened h wt) ∧
      w2.closedBlocks = w.closedBlocks.filter (fun x => x.Hash != data.block.Hash) ∧
      w2.receivedStash =
        (w.receivedStash ++ [data.block]).drop ((w.receivedStash ++ [data.block]).length - cap) ∧
      ∃ prev, ReadClosedBlock data.block.PrevHash w2 = some prev ∧ w2.lastClosedBlock = [prev] := by
  simp only [postValidateRollback, Option.bind_eq_bind, Option.bind_eq_some] at h
  obtain ⟨wt, hA, wS, hS, hfin⟩ := h
  obtain ⟨e, rfl⟩ := onEnv_some hS
  have l1 := foldl_reopenTx Transaction.accTx R data.accTxSlice w hacc
  generalize List.foldl (fun w tx => reopenTx (Transaction.accTx tx) w) w data.accTxSlice = wa
    at hA l1
  have l2 := foldl_reopenTx Transaction.fundsTx R data.fundsTxSlice wa hfunds
  generalize List.foldl (fun w tx => reopenTx (Transaction.fundsTx tx) w) wa data.fundsTxSlice = wf
    at hA l2
  have l3 := foldl_reopenTx Transaction.configTx R data.configTxSlice wf hconfig
  generalize List.foldl (fun w tx => reopenTx (Transaction.configTx tx) w) wf data.configTxSlice
    = wc at hA l3
  have l4 := foldl_reopenTx Transaction.stakeTx R data.stakeTxSlice wc hstake
  generalize List.foldl (fun w tx => reopenTx (Transaction.stakeTx tx) w) wc data.stakeTxSlice = ws
    at hA l4
  have l5 := rollbackAggSenders_some R _ _ _ hA hagg
  have r5 := l5.1
  have r4 := l4.1.trans r5
  have r3 := l3.1.trans r4
  have r2 := l2.1.trans r3
  have r1 := l1.1.trans r2
  refine ⟨wt, r1, ?_⟩
  cases hp : ReadClosedBlock data.block.PrevHash
      (DeleteAllLastClosedBlock (WriteToReceivedStash cap data.block
        (DeleteClosedBlock data.block.Hash { wt with env := e }))) with
  | none => simp [hp] at hfin
  | some prev =>
    simp only [hp, Option.some.injEq] at hfin
    subst hfin
    refine ⟨rfl, rfl, ?_, ?_, ?_, ?_, l5.2, ?_, ?_, prev, ?_, ?_⟩
    · exact fun t ht => r2.reopened (l1.2 t ht)
    · exact fun t ht => r3.reopened (l2.2 t ht)
    · exact fun t ht => r4.reopened (l3.2 t ht)
    · exact fun t ht => r5.reopened (l4.2 t ht)
    · simp [WriteLastClosedBlock, DeleteAllLastClosedBlock, WriteToReceivedStash,
        DeleteClosedBlock, r1.closedBlocks_eq]
    · simp [WriteLastClosedBlock, DeleteAllLastClosedBlock, WriteToReceivedStash,
        DeleteClosedBlock, r1.receivedStash_eq]
    · simpa [ReadClosedBlock, WriteLastClosedBlock, DeleteAllLastClosedBlock,
        WriteToReceivedStash, DeleteClosedBlock] using hp
    · simp [WriteLastClosedBlock, DeleteAllLastClosedBlock, WriteToReceivedStash,
        DeleteClosedBlock]

/-! ## Properties of `rollback` -/

theorem mem_hashes_of_found {α : Type} {assert : Transaction → Option α} {inj : α → Transaction}
    (hinj : ∀ tx t, assert tx = some t → tx = inj t) {w : World Env} {hashes : List Hash32}
    {slice : List α} (hf : fetchClosed assert w hashes = .found slice) :
    (∀ t ∈ slice, (inj t).Hash ∈ hashes) ∧ (∀ h ∈ hashes, ∃ t ∈ slice, (inj t).Hash = h) := by
  have hm := (fetchClosed_found assert inj hinj w hashes slice hf).1
  constructor
  · intro t ht
    rw [← hm]
    exact List.mem_map_of_mem _ ht
  · intro h hh
    rw [← hm] at hh
    obtain ⟨t, ht, rfl⟩ := List.mem_map.1 hh
    exact ⟨t, ht, rfl⟩

/-- Every successful `rollback` has the effects collected in `RollbackFacts`. -/
theorem rollback_facts {P : Primitives Env} {cap : Nat} {b : Block} {w w2 : World Env}
    (h : rollbackSucceeds P cap b w w2) : ∃ pre, RollbackFacts cap b pre w w2 := by
  unfold rollbackSucceeds rollback at h
  cases hp : preValidateRollback b w with
  | none => simp [hp] at h
  | some pre =>
    cases he : pre.err with
    | some msg => simp [hp, he] at h
    | none =>
      simp only [hp, he] at h
      cases hs : rollbackSteps P cap b ⟨pre.accTxSlice, pre.fundsTxSlice, pre.configTxSlice,
          pre.stakeTxSlice, pre.aggSenderTxSlice, pre.aggReceiverTxSlice, b⟩ w with
      | none => simp [hs] at h
      | some w3 =>
        simp only [hs, Outcome.returned.injEq, true_and] at h
        subst h
        simp only [rollbackSteps, Option.bind_eq_bind, Option.bind_eq_some] at hs
        obtain ⟨wc, hc, wv, hv, hpost⟩ := hs
        obtain ⟨e1, rfl⟩ := onEnv_some hc
        obtain ⟨e2, rfl⟩ := validateStateRollback_some hv
        obtain ⟨f1, f2, f3, f4, f5, _⟩ := preValidateRollback_ok hp he
        have m1 := mem_hashes_of_found asAccTx_inj f1
        have m2 := mem_hashes_of_found asFundsTx_inj f2
        have m3 := mem_hashes_of_found asConfigTx_inj f3
        have m4 := mem_hashes_of_found asStakeTx_inj f4
        obtain ⟨wt, r, ho, hcl, p1, p2, p3, p4, p5, hcb, hrs, hlast⟩ :=
          postValidateRollback_some
            (fun g => g ∈ plainHashes b ∨ ∃ a ∈ pre.aggSenderTxSlice, g ∈ a.AggregatedTxSlice)
            (fun t ht => Or.inl (by simp [plainHashes, show t.Hash ∈ b.AccTxData from m1.1 t ht]))
            (fun t ht => Or.inl (by simp [plainHashes, show t.Hash ∈ b.FundsTxData from m2.1 t ht]))
            (fun t ht => Or.inl (by simp [plainHashes, show t.Hash ∈ b.ConfigTxData from m3.1 t ht]))
            (fun t ht => Or.inl (by simp [plainHashes, show t.Hash ∈ b.StakeTxData from m4.1 t ht]))
            (fun a ha g hg => Or.inr ⟨a, ha, hg⟩) hpost
        refine ⟨pre, hp, he, ?_, ?_, ?_, ?_, ?_, hcb, hrs, hlast⟩
        · intro g hg
          rw [inOpen_congr ho g]
          exact r.open_mono g hg
        · intro g hg
          rw [inClosed_congr hcl g] at hg
          exact r.closed_anti g hg
        · intro g hg
          rw [inOpen_congr ho g] at hg
          exact r.open_bound g hg
        · intro g hg
          apply reopened_congr ho hcl
          simp only [plainHashes, List.mem_append] at hg
          rcases hg with ((hg | hg) | hg) | hg
          · obtain ⟨t, ht, rfl⟩ := m1.2 g hg
            exact p1 t ht
          · obtain ⟨t, ht, rfl⟩ := m2.2 g hg
            exact p2 t ht
          · obtain ⟨t, ht, rfl⟩ := m3.2 g hg
            exact p3 t ht
          · obtain ⟨t, ht, rfl⟩ := m4.2 g hg
            exact p4 t ht
        · intro a ha
          refine ⟨(inClosed_congr hcl _).trans (p5 a ha).1, ?_⟩
          intro g hg
          exact reopened_congr ho hcl ((p5 a ha).2 g hg)

theorem rollbackFails_inv {P : Primitives Env} {cap : Nat} {b : Block} {w w1 : World Env}
    (h : rollbackFails P cap b w w1) :
    w1 = w ∧ ∃ pre msg, preValidateRollback b w = some pre ∧ pre.err = some msg := by
  obtain ⟨msg, h⟩ := h
  unfold rollback at h
  cases hp : preValidateRollback b w with
  | none => simp [hp] at h
  | some pre =>
    cases he : pre.err with
    | some m =>
      simp only [hp, he, Outcome.returned.injEq] at h
      exact ⟨h.2.symm, pre, m, rfl, he⟩
    | none =>
      simp only [hp, he] at h
      cases hs : rollbackSteps P cap b ⟨pre.accTxSlice, pre.fundsTxSlice, pre.configTxSlice,
          pre.stakeTxSlice, pre.aggSenderTxSlice, pre.aggReceiverTxSlice, b⟩ w with
      | none => simp [hs] at h
      | some w3 => simp [hs] at h

theorem rollbackFails_of_pre {P : Primitives Env} {cap : Nat} {b : Block} {w : World Env}
    {pre : PreValidated} {msg : String} (hp : preValidateRollback b w = some pre)
    (he : pre.err = some msg) : rollbackFails P cap b w w :=
  ⟨msg, by simp [rollback, hp, he]⟩

end Store

/-! ## The claims about the rollback engine -/

/-- C2: when every closed entry has the kind its list expects, `rollback(b)` returns an
error exactly when some hash of the five fetched sequences has no entry in closed storage;
and a call that returns an error leaves the whole world as it was, ledger state included,
whatever the ledger primitives are: none of them has run and no store was written. -/
theorem rollback_error_iff_missing_hash {Env : Type} (P : Primitives Env) (cap : Nat)
    (b : Block) (w : World Env) (hk : kindsAsExpected b w = true) :
    ((∃ w1, rollbackFails P cap b w w1) ↔ ∃ g ∈ fetchedHashes b, inClosed g w = false) ∧
    ∀ w1, rollbackFails P cap b w w1 → w1 = w := by
  refine ⟨⟨?_, ?_⟩, fun w1 h => (rollbackFails_inv h).1⟩
  · rintro ⟨w1, h⟩
    obtain ⟨_, pre, msg, hp, he⟩ := rollbackFails_inv h
    exact preValidateRollback_err hp he
  · rintro ⟨g, hg, hc⟩
    obtain ⟨pre, hp⟩ := preValidateRollback_isSome_of_kinds hk
    cases he : pre.err with
    | none =>
      have := preValidateRollback_ok_inClosed hp he g hg
      rw [hc] at this
      exact absurd this (by decide)
    | some msg => exact ⟨w, rollbackFails_of_pre hp he⟩

/-- C2, at a block whose funds transaction 6 is not in closed storage: the call fails and
the log of primitive invocations stays empty. -/
theorem rollback_error_iff_missing_hash_witness :
    kindsAsExpected exBlockPlain exWorldMissing = true ∧
    (((∃ w1, rollbackFails logPrimitives 3 exBlockPlain exWorldMissing w1) ↔
        ∃ g ∈ fetchedHashes exBlockPlain, inClosed g exWorldMissing = false) ∧
      ∀ w1, rollbackFails logPrimitives 3 exBlockPlain exWorldMissing w1 → w1 = exWorldMissing) :=
  ⟨by decide, rollback_error_iff_missing_hash logPrimitives 3 exBlockPlain exWorldMissing
    (by decide)⟩

/-- C3 as stated fails: the aggregate 7 is listed in the block, the rollback succeeds, and
7 is not in open storage afterwards. -/
theorem rollback_aggregate_hash_not_reopened :
    rollbackSucceeds logPrimitives 3 exBlockAgg exWorldAgg exWorldAggAfter ∧
    7 ∈ exBlockAgg.AggSenderTxData ∧ inOpen 7 exWorldAggAfter = false :=
  ⟨rfl, by decide, by decide⟩

/-- C3, amended: after a successful `rollback(b)` every hash of the account, funds, config
and stake sequences of `b` is present in open storage and absent from closed storage, and
every hash of its aggregated-sender sequence is absent from closed storage. -/
theorem rollback_reopens_plain_hashes {Env : Type} (P : Primitives Env) (cap : Nat) (b : Block)
    (w w2 : World Env) (h : rollbackSucceeds P cap b w w2) :
    (∀ g ∈ plainHashes b, inOpen g w2 = true ∧ inClosed g w2 = false) ∧
    ∀ g ∈ b.AggSenderTxData, inClosed g w2 = false := by
  obtain ⟨pre, facts⟩ := rollback_facts h
  refine ⟨facts.plain, ?_⟩
  intro g hg
  obtain ⟨_, _, _, _, f5, _⟩ := preValidateRollback_ok facts.pre_some facts.pre_err
  obtain ⟨a, ha, rfl⟩ := (mem_hashes_of_found asAggSenderTx_inj f5).2 g hg
  exact (facts.aggs a ha).1

/-- C3, amended, at `exBlockMixed`, which lists the account transaction 4, the funds
transaction 5 and the aggregate 7. -/
theorem rollback_reopens_plain_hashes_witness :
    rollbackSucceeds logPrimitives 3 exBlockMixed exWorldMixed exWorldMixedAfter ∧
    plainHashes exBlockMixed = [4, 5] ∧ exBlockMixed.AggSenderTxData = [7] ∧
    ((∀ g ∈ plainHashes exBlockMixed,
        inOpen g exWorldMixedAfter = true ∧ inClosed g exWorldMixedAfter = false) ∧
      ∀ g ∈ exBlockMixed.AggSenderTxData, inClosed g exWorldMixedAfter = false) :=
  ⟨rfl, rfl, rfl, rollback_reopens_plain_hashes logPrimitives 3 exBlockMixed exWorldMixed
    exWorldMixedAfter rfl⟩

/-- C4 as stated fails: a block that lists no transaction is rolled back a second time
without an error, and the second call runs every ledger primitive again. -/
theorem rollback_twice_empty_block_reapplied :
    rollbackSucceeds logPrimitives 3 exBlockEmpty exWorldEmpty exWorldEmptyAfter ∧
    rollbackSucceeds logPrimitives 3 exBlockEmpty exWorldEmptyAfter exWorldEmptyAgain ∧
    exWorldEmptyAgain.env ≠ exWorldEmptyAfter.env :=
  ⟨rfl, rfl, by decide⟩

/-- C4, amended: when `b` lists at least one hash in its account, funds, config, stake or
aggregated-sender sequences and `rollback(b)` has succeeded, a second `rollback(b)` on the
resulting world returns an error and leaves that world as it is. -/
theorem rollback_twice_rejected {Env : Type} (P : Primitives Env) (cap : Nat) (b : Block)
    (w w2 : World Env) (h : rollbackSucceeds P cap b w w2) (hne : fetchedHashes b ≠ []) :
    rollbackFails P cap b w2 w2 := by
  obtain ⟨pre, facts⟩ := rollback_facts h
  obtain ⟨_, _, _, _, f5, _⟩ := preValidateRollback_ok facts.pre_some facts.pre_err
  have habs : ∀ g ∈ fetchedHashes b, inClosed g w2 = false := by
    intro g hg
    have hg2 : g ∈ plainHashes b ∨ g ∈ b.AggSenderTxData := by
      simpa [fetchedHashes, plainHashes, or_assoc] using hg
    rcases hg2 with hg2 | hg2
    · exact (facts.plain g hg2).2
    · obtain ⟨a, ha, rfl⟩ := (mem_hashes_of_found asAggSenderTx_inj f5).2 g hg2
      exact (facts.aggs a ha).1
  obtain ⟨pre2, msg, hp2, he2⟩ := preValidateRollback_all_absent habs hne
  exact rollbackFails_of_pre hp2 he2

/-- C4, amended, at `exBlockPlain`. -/
theorem rollback_twice_rejected_witness :
    rollbackSucceeds logPrimitives 3 exBlockPlain exWorldPlain exWorldPlainAfter ∧
    fetchedHashes exBlockPlain ≠ [] ∧
    rollbackFails logPrimitives 3 exBlockPlain exWorldPlainAfter exWorldPlainAfter :=
  ⟨rfl, by decide, rollback_twice_rejected logPrimitives 3 exBlockPlain exWorldPlain
    exWorldPlainAfter rfl (by decide)⟩

/-- Outside the data model the aggregate can be in open storage after a rollback: when it
was in open storage before the call, closed and open at once, and when its hash occurs in
the `AggregatedTxSlice` of an aggregate listed before it. -/
theorem rollback_aggregate_left_in_open :
    (rollbackSucceeds logPrimitives 3 exBlockAgg exWorldAggOpen exWorldAggOpenAfter ∧
      listedAggregate exBlockAgg exWorldAggOpen exAgg ∧
      inOpen exAgg.Hash exWorldAggOpenAfter = true) ∧
    (rollbackSucceeds logPrimitives 3 exBlockNested exWorldNested exWorldNestedAfter ∧
      listedAggregate exBlockNested exWorldNested ⟨8, [], 0⟩ ∧
      inOpen 8 exWorldNested = false ∧ inOpen 8 exWorldNestedAfter = true) :=
  ⟨⟨rfl, ⟨7, by decide, rfl⟩, by decide⟩, ⟨rfl, ⟨8, by decide, rfl⟩, by decide, by decide⟩⟩

/-- After a successful `rollback(b)`, for every aggregate `a` listed in `b`, every hash of
`a.AggregatedTxSlice` is present in open storage and absent from closed storage, the hash
of `a` is absent from closed storage, and it is in open storage only if it was there
before the call or occurs in the `AggregatedTxSlice` of a listed aggregate. -/
theorem rollback_aggregate_expansion {Env : Type} (P : Primitives Env) (cap : Nat) (b : Block)
    (w w2 : World Env) (a : AggSenderTx) (h : rollbackSucceeds P cap b w w2)
    (ha : listedAggregate b w a) :
    (∀ f ∈ a.AggregatedTxSlice, inOpen f w2 = true ∧ inClosed f w2 = false) ∧
    inClosed a.Hash w2 = false ∧
    (inOpen a.Hash w2 = true →
      inOpen a.Hash w = true ∨ ∃ c, listedAggregate b w c ∧ a.Hash ∈ c.AggregatedTxSlice) := by
  obtain ⟨pre, facts⟩ := rollback_facts h
  obtain ⟨f1, f2, f3, f4, f5, _⟩ := preValidateRollback_ok facts.pre_some facts.pre_err
  have found5 := fetchClosed_found asAggSenderTx Transaction.aggSenderTx asAggSenderTx_inj w _ _ f5
  have listed : ∀ c ∈ pre.aggSenderTxSlice, listedAggregate b w c := by
    intro c hc
    exact ⟨c.Hash, (mem_hashes_of_found asAggSenderTx_inj f5).1 c hc, found5.2 c hc⟩
  obtain ⟨g, hg, hr⟩ := ha
  have hag : a.Hash = g := ReadClosedTx_hash hr
  have hmem : a ∈ pre.aggSenderTxSlice := by
    obtain ⟨c, hc, hcg⟩ := (mem_hashes_of_found asAggSenderTx_inj f5).2 g hg
    have h1 := found5.2 c hc
    rw [hcg, hr] at h1
    simp only [Option.some.injEq, Transaction.aggSenderTx.injEq] at h1
    rw [h1]
    exact hc
  have hra : ReadClosedTx a.Hash w = some (.aggSenderTx a) := by rw [hag]; exact hr
  have notPlain : ∀ {α : Type} (assert : Transaction → Option α) (inj : α → Transaction)
      (hinj : ∀ tx t, assert tx = some t → tx = inj t) (hashes : List Hash32) (slice : List α),
      fetchClosed assert w hashes = .found slice → (∀ t, inj t ≠ .aggSenderTx a) →
      a.Hash ∉ hashes := by
    intro α assert inj hinj hashes slice hf hne hin
    obtain ⟨t, ht, hth⟩ := (mem_hashes_of_found hinj hf).2 a.Hash hin
    have h1 := (fetchClosed_found assert inj hinj w hashes slice hf).2 t ht
    rw [hth, hra] at h1
    exact hne t (Option.some.inj h1).symm
  refine ⟨(facts.aggs a hmem).2, (facts.aggs a hmem).1, ?_⟩
  intro ho
  rcases facts.open_bound a.Hash ho with h1 | h1 | ⟨c, hc, hin⟩
  · exact Or.inl h1
  · exfalso
    simp only [plainHashes, List.mem_append] at h1
    rcases h1 with ((h1 | h1) | h1) | h1
    · exact notPlain asAccTx _ asAccTx_inj _ _ f1 (fun t => by simp) h1
    · exact notPlain asFundsTx _ asFundsTx_inj _ _ f2 (fun t => by simp) h1
    · exact notPlain asConfigTx _ asConfigTx_inj _ _ f3 (fun t => by simp) h1
    · exact notPlain asStakeTx _ asStakeTx_inj _ _ f4 (fun t => by simp) h1
  · exact Or.inr ⟨c, listed c hc, hin⟩

theorem kindAsExpected_of_wrapped {Env : Type} {b : Block} {w : World Env} {c : AggSenderTx}
    (hk : wrappedKindsAsExpected b w = true) (hc : listedAggregate b w c) :
    kindAsExpected asFundsTx w c.AggregatedTxSlice = true := by
  obtain ⟨g, hg, hr⟩ := hc
  have h1 := (List.all_eq_true.1 hk) g hg
  simpa [hr] using h1

/-- C5: after a successful `rollback(b)`, on a store in which the aggregate `a` listed in
`b` is not in open storage before the call and the hashes wrapped by the listed aggregates
resolve to funds transactions, every hash of `a.AggregatedTxSlice` is present in open
storage and absent from closed storage, and the hash of `a` is present in neither open
nor closed storage. -/
theorem rollback_aggregate_deleted {Env : Type} (P : Primitives Env) (cap : Nat) (b : Block)
    (w w2 : World Env) (a : AggSenderTx) (h : rollbackSucceeds P cap b w w2)
    (ha : listedAggregate b w a) (hopen : inOpen a.Hash w = false)
    (hk : wrappedKindsAsExpected b w = true) :
    (∀ f ∈ a.AggregatedTxSlice, inOpen f w2 = true ∧ inClosed f w2 = false) ∧
    inOpen a.Hash w2 = false ∧ inClosed a.Hash w2 = false := by
  obtain ⟨h1, h2, h3⟩ := rollback_aggregate_expansion P cap b w w2 a h ha
  refine ⟨h1, ?_, h2⟩
  cases ho : inOpen a.Hash w2 with
  | false => rfl
  | true =>
    exfalso
    rcases h3 ho with hb | ⟨c, hc, hin⟩
    · rw [hopen] at hb
      exact absurd hb (by decide)
    · obtain ⟨g, _, hr⟩ := ha
      have hag : a.Hash = g := ReadClosedTx_hash hr
      have hra : ReadClosedTx a.Hash w = some (.aggSenderTx a) := by rw [hag]; exact hr
      have hkc := kindAsExpected_of_wrapped hk hc
      have h4 := (List.all_eq_true.1 hkc) a.Hash hin
      simp [hra, asFundsTx] at h4

/-- C5, at `exBlockAgg`: the aggregate 7 wraps the funds transactions 5 and 6. -/
theorem rollback_aggregate_deleted_witness :
    rollbackSucceeds logPrimitives 3 exBlockAgg exWorldAgg exWorldAggAfter ∧
    listedAggregate exBlockAgg exWorldAgg exAgg ∧
    inOpen exAgg.Hash exWorldAgg = false ∧
    wrappedKindsAsExpected exBlockAgg exWorldAgg = true ∧
    ((∀ f ∈ exAgg.AggregatedTxSlice,
        inOpen f exWorldAggAfter = true ∧ inClosed f exWorldAggAfter = false) ∧
      inOpen exAgg.Hash exWorldAggAfter = false ∧ inClosed exAgg.Hash exWorldAggAfter = false) :=
  ⟨rfl, ⟨7, by decide, rfl⟩, by decide, by decide,
    rollback_aggregate_deleted logPrimitives 3 exBlockAgg exWorldAgg exWorldAggAfter exAgg rfl
      ⟨7, by decide, rfl⟩ (by decide) (by decide)⟩

/-- C10: after a successful `rollback(b)`, with a received stash that holds at least one
block, `b` is absent from closed-block storage, `b` is in the received stash, and the only
last-closed-block marker is the closed block stored under `b.PrevHash`. -/
theorem rollback_retires_block {Env : Type} (P : Primitives Env) (cap : Nat) (b : Block)
    (w w2 : World Env) (h : rollbackSucceeds P cap b w w2) (hcap : 0 < cap) :
    ReadClosedBlock b.Hash w2 = none ∧ b ∈ w2.receivedStash ∧
    ∃ prev, prev.Hash = b.PrevHash ∧ prev ∈ w.closedBlocks ∧
      ReadClosedBlock b.PrevHash w2 = some prev ∧ w2.lastClosedBlock = [prev] := by
  obtain ⟨pre, facts⟩ := rollback_facts h
  refine ⟨?_, ?_, ?_⟩
  · simp [ReadClosedBlock, facts.closedBlocks_eq, List.find?_eq_none, List.mem_filter]
  · rw [facts.receivedStash_eq]
    have hlen : (w.receivedStash ++ [b]).length - cap ≤ w.receivedStash.length := by
      simp only [List.length_append, List.length_singleton]
      omega
    rw [List.drop_append_of_le_length hlen]
    simp
  · obtain ⟨prev, hr, hl⟩ := facts.lastClosedBlock_eq
    refine ⟨prev, ?_, ?_, hr, hl⟩
    · have := List.find?_some hr
      simpa using this
    · have hm := List.mem_of_find?_eq_some hr
      rw [facts.closedBlocks_eq] at hm
      exact (List.mem_filter.1 hm).1

/-- C10, at `exBlockPlain`. -/
theorem rollback_retires_block_witness :
    rollbackSucceeds logPrimitives 3 exBlockPlain exWorldPlain exWorldPlainAfter ∧ 0 < 3 ∧
    (ReadClosedBlock exBlockPlain.Hash exWorldPlainAfter = none ∧
      exBlockPlain ∈ exWorldPlainAfter.receivedStash ∧
      ∃ prev, prev.Hash = exBlockPlain.PrevHash ∧ prev ∈ exWorldPlain.closedBlocks ∧
        ReadClosedBlock exBlockPlain.PrevHash exWorldPlainAfter = some prev ∧
        exWorldPlainAfter.lastClosedBlock = [prev]) :=
  ⟨rfl, by decide, rollback_retires_block logPrimitives 3 exBlockPlain exWorldPlain
    exWorldPlainAfter rfl (by decide)⟩

/-! ## Properties of `forwardTxReqToMiner` -/

theorem txAlreadyInStash_iff (slice : List FundsTx) (h : Hash32) :
    txAlreadyInStash slice h = true ↔ ∃ u ∈ slice, u.Hash = h := by
  induction slice with
  | nil => simp [txAlreadyInStash]
  | cons u rest ih =>
    unfold txAlreadyInStash
    by_cases hu : u.Hash = h
    · simp [hu]
    · simp [hu, ih]

theorem txAlreadyInStash_false_iff (slice : List FundsTx) (h : Hash32) :
    txAlreadyInStash slice h = false ↔ ∀ u ∈ slice, u.Hash ≠ h := by
  rw [← Bool.not_eq_true, txAlreadyInStash_iff]
  simp

theorem forward_funds_new (D : Decoders) (p : PeerRef) (payload : List Nat) (t : FundsTx)
    (s : MinerInterface) (hd : D.fundsTx payload = some t)
    (hnew : ∀ u ∈ s.receivedTXStash, u.Hash ≠ t.Hash) :
    forwardTxReqToMiner D p (some payload) FUNDSTX_RES s =
      { s with
        FundsTxChan := s.FundsTxChan ++ [t]
        receivedTXStash :=
          if (s.receivedTXStash ++ [t]).length > 1000 then (s.receivedTXStash ++ [t]).drop 1
          else s.receivedTXStash ++ [t] } := by
  have h1 := (txAlreadyInStash_false_iff s.receivedTXStash t.Hash).2 hnew
  simp [forwardTxReqToMiner, hd, h1]

theorem forward_funds_dup (D : Decoders) (p : PeerRef) (payload : List Nat) (t : FundsTx)
    (s : MinerInterface) (hd : D.fundsTx payload = some t)
    (hdup : ∃ u ∈ s.receivedTXStash, u.Hash = t.Hash) :
    forwardTxReqToMiner D p (some payload) FUNDSTX_RES s = s := by
  have h1 := (txAlreadyInStash_iff s.receivedTXStash t.Hash).2 hdup
  simp [forwardTxReqToMiner, hd, h1]

/-- One call either leaves the stash and the funds channel alone, or accepts a funds
transaction whose hash is new: it is sent on the channel and appended to the stash, and
the first entry of the stash is dropped when that makes more than 1000. -/
theorem forward_cases (D : Decoders) (p : PeerRef) (payload : Option (List Nat)) (txType : Nat)
    (s : MinerInterface) :
    ((forwardTxReqToMiner D p payload txType s).receivedTXStash = s.receivedTXStash ∧
      (forwardTxReqToMiner D p payload txType s).FundsTxChan = s.FundsTxChan) ∨
    ∃ t, (∀ u ∈ s.receivedTXStash, u.Hash ≠ t.Hash) ∧
      (forwardTxReqToMiner D p payload txType s).FundsTxChan = s.FundsTxChan ++ [t] ∧
      (forwardTxReqToMiner D p payload txType s).receivedTXStash =
        if (s.receivedTXStash ++ [t]).length > 1000 then (s.receivedTXStash ++ [t]).drop 1
        else s.receivedTXStash ++ [t] := by
  cases payload with
  | none => exact Or.inl ⟨rfl, rfl⟩
  | some payload =>
    by_cases h20 : txType = FUNDSTX_RES
    · subst h20
      cases hd : D.fundsTx payload with
      | none => exact Or.inl (by simp [forwardTxReqToMiner, hd])
      | some t =>
        by_cases hdup : ∃ u ∈ s.receivedTXStash, u.Hash = t.Hash
        · rw [forward_funds_dup D p payload t s hd hdup]
          exact Or.inl ⟨rfl, rfl⟩
        · have hnew : ∀ u ∈ s.receivedTXStash, u.Hash ≠ t.Hash := by
            intro u hu he
            exact hdup ⟨u, hu, he⟩
          rw [forward_funds_new D p payload t s hd hnew]
          exact Or.inr ⟨t, hnew, rfl, rfl⟩
    · left
      simp only [forwardTxReqToMiner, if_neg h20]
      split_ifs <;> (constructor <;> first | rfl | (split <;> rfl))

theorem forwardAll_append (D : Decoders) (cs : List Call) (c : Call) (s : MinerInterface) :
    forwardAll D (cs ++ [c]) s =
      forwardTxReqToMiner D c.p c.payload c.txType (forwardAll D cs s) := by
  simp [forwardAll, List.foldl_append]

theorem forward_chan_length_le (D : Decoders) (p : PeerRef) (payload : Option (List Nat))
    (txType : Nat) (s : MinerInterface) :
    s.FundsTxChan.length ≤ (forwardTxReqToMiner D p payload txType s).FundsTxChan.length := by
  rcases forward_cases D p payload txType s with ⟨_, h⟩ | ⟨t, _, h, _⟩
  · rw [h]
  · rw [h]; simp

/-- From the start-up state the stash is always the last 1000 transactions sent on the
funds channel, in the order they were sent. -/
theorem stash_eq_last_sent (D : Decoders) (calls : List Call) :
    (forwardAll D calls MinerInterface.init).receivedTXStash =
      (forwardAll D calls MinerInterface.init).FundsTxChan.drop
        ((forwardAll D calls MinerInterface.init).FundsTxChan.length - 1000) := by
  induction calls using List.reverseRecOn with
  | nil => simp [forwardAll, MinerInterface.init]
  | append_singleton cs c ih =>
    rw [forwardAll_append]
    generalize forwardAll D cs MinerInterface.init = s at ih ⊢
    rcases forward_cases D c.p c.payload c.txType s with ⟨h1, h2⟩ | ⟨t, _, h2, h1⟩
    · rw [h1, h2]; exact ih
    · rw [h1, h2, ih]
      have hlen : (s.FundsTxChan.drop (s.FundsTxChan.length - 1000) ++ [t]).length =
          (s.FundsTxChan.length - (s.FundsTxChan.length - 1000)) + 1 := by
        simp
      by_cases hbig : 1000 ≤ s.FundsTxChan.length
      · have hgt : (s.FundsTxChan.drop (s.FundsTxChan.length - 1000) ++ [t]).length > 1000 := by
          rw [hlen]; omega
        have e : (s.FundsTxChan ++ [t]).length - 1000 = s.FundsTxChan.length - 1000 + 1 := by
          simp only [List.length_append, List.length_singleton]
          omega
        rw [if_pos hgt, e, ← List.drop_append_of_le_length (Nat.sub_le _ _), List.drop_drop]
      · have hle : ¬ (s.FundsTxChan.drop (s.FundsTxChan.length - 1000) ++ [t]).length > 1000 := by
          rw [hlen]; omega
        rw [if_neg hle]
        have h0 : s.FundsTxChan.length - 1000 = 0 := by omega
        have h1 : (s.FundsTxChan ++ [t]).length - 1000 = 0 := by
          simp only [List.length_append, List.length_singleton]
          omega
        rw [h0, h1]
        simp

theorem forwardAll_cons (D : Decoders) (c : Call) (cs : List Call) (s : MinerInterface) :
    forwardAll D (c :: cs) s =
      forwardAll D cs (forwardTxReqToMiner D c.p c.payload c.txType s) := by
  simp [forwardAll]

/-- Delivering transactions with pairwise distinct hashes, none of them in the stash,
sends every one of them on the funds channel. -/
theorem forwardAll_distinct (D : Decoders) (p : PeerRef) (enc : FundsTx → List Nat) :
    ∀ (ts : List FundsTx) (s : MinerInterface), (∀ t ∈ ts, D.fundsTx (enc t) = some t) →
      (ts.map (fun t => t.Hash)).Nodup →
      (∀ u ∈ s.receivedTXStash, ∀ t ∈ ts, u.Hash ≠ t.Hash) →
      (forwardAll D (deliveries p enc ts) s).FundsTxChan = s.FundsTxChan ++ ts
  | [], s, _, _, _ => by simp [deliveries, forwardAll]
  | t :: rest, s, hdec, hnd, hnew => by
    have hd := hdec t (List.mem_cons_self _ _)
    have hn : ∀ u ∈ s.receivedTXStash, u.Hash ≠ t.Hash :=
      fun u hu => hnew u hu t (List.mem_cons_self _ _)
    simp only [List.map_cons, List.nodup_cons, List.mem_map, not_exists, not_and] at hnd
    have step := forward_funds_new D p (enc t) t s hd hn
    have ih := forwardAll_distinct D p enc rest
      (forwardTxReqToMiner D p (some (enc t)) FUNDSTX_RES s)
      (fun u hu => hdec u (List.mem_cons_of_mem _ hu)) hnd.2
      (by
        intro u hu v hv
        rw [step] at hu
        have hmem : u ∈ s.receivedTXStash ++ [t] := by
          simp only at hu
          split_ifs at hu
          · exact List.mem_of_mem_drop hu
          · exact hu
        rcases List.mem_append.1 hmem with h1 | h1
        · exact hnew u h1 v (List.mem_cons_of_mem _ hv)
        · have : u = t := by simpa using h1
          rw [this]
          exact fun he => hnd.1 v hv he.symm)
    have e : deliveries p enc (t :: rest) = ⟨p, some (enc t), FUNDSTX_RES⟩ :: deliveries p enc rest := by
      simp [deliveries]
    rw [e, forwardAll_cons, ih, step]
    simp

/-- A stashed transaction stays in the stash as long as fewer than 1000 transactions have
been accepted after it. -/
theorem stash_retains (D : Decoders) (t : FundsTx) (base : Nat) (calls : List Call)
    (s : MinerInterface)
    (hs : ∃ pre added, s.receivedTXStash = pre ++ t :: added ∧
      added.length + base = s.FundsTxChan.length)
    (hfew : (forwardAll D calls s).FundsTxChan.length < base + 1000) :
    ∃ pre added, (forwardAll D calls s).receivedTXStash = pre ++ t :: added ∧
      added.length + base = (forwardAll D calls s).FundsTxChan.length := by
  induction calls using List.reverseRecOn with
  | nil => simpa [forwardAll] using hs
  | append_singleton cs c ih =>
    rw [forwardAll_append] at hfew ⊢
    have hmono := forward_chan_length_le D c.p c.payload c.txType (forwardAll D cs s)
    obtain ⟨pre, added, h1, h2⟩ := ih (lt_of_le_of_lt hmono hfew)
    generalize forwardAll D cs s = s1 at hfew hmono h1 h2 ⊢
    rcases forward_cases D c.p c.payload c.txType s1 with ⟨e1, e2⟩ | ⟨u, _, e2, e1⟩
    · rw [e1, e2]; exact ⟨pre, added, h1, h2⟩
    · rw [e2] at hfew
      have hf : s1.FundsTxChan.length + 1 < base + 1000 := by simpa using hfew
      have hl : (pre ++ t :: added ++ [u]).length = pre.length + added.length + 2 := by
        simp only [List.length_append, List.length_cons, List.length_singleton, List.length_nil]
        omega
      rw [e1, e2, h1, hl]
      by_cases hbig : pre.length + added.length + 2 > 1000
      · rw [if_pos hbig]
        cases pre with
        | nil =>
          simp only [List.length_nil] at hbig
          omega
        | cons x pre1 => exact ⟨pre1, added ++ [u], by simp, by simp; omega⟩
      · rw [if_neg hbig]
        exact ⟨pre, added ++ [u], by simp, by simp; omega⟩

/-! ## The claims about deduplicated response forwarding -/

/-- C6 as stated fails: with the transaction 5 already in the stash, delivering it twice
forwards it not once but never; both calls leave the state as it is and nothing is sent
on the funds channel. -/
theorem stashed_tx_delivered_twice_never_forwarded :
    exDecoders.fundsTx (exEncode ⟨5, 0⟩) = some ⟨5, 0⟩ ∧
    forwardTxReqToMiner exDecoders 0 (some (exEncode ⟨5, 0⟩)) FUNDSTX_RES exStashed = exStashed ∧
    (forwardTxReqToMiner exDecoders 0 (some (exEncode ⟨5, 0⟩)) FUNDSTX_RES
      (forwardTxReqToMiner exDecoders 0 (some (exEncode ⟨5, 0⟩)) FUNDSTX_RES exStashed)).FundsTxChan
      = [] := by
  decide

/-- C6, amended: a `FUNDSTX_RES` call with the payload of a decodable `t` sends `t` on
`FundsTxChan` exactly when no stash entry has its hash, and otherwise changes nothing.
When no stash entry has the hash of `t` before the first of two deliveries, and fewer than
1000 transactions are accepted by the calls in between, the first delivery is forwarded
and the second forwards nothing and leaves the stash, and the whole state, unchanged. -/
theorem requested_funds_tx_forwarded_once (D : Decoders) (p q : PeerRef) (payload : List Nat)
    (t : FundsTx) (s : MinerInterface) (calls : List Call) (hd : D.fundsTx payload = some t) :
    ((forwardTxReqToMiner D p (some payload) FUNDSTX_RES s).FundsTxChan = s.FundsTxChan ++ [t] ↔
      ∀ u ∈ s.receivedTXStash, u.Hash ≠ t.Hash) ∧
    ((∃ u ∈ s.receivedTXStash, u.Hash = t.Hash) →
      forwardTxReqToMiner D p (some payload) FUNDSTX_RES s = s) ∧
    ((∀ u ∈ s.receivedTXStash, u.Hash ≠ t.Hash) →
      (forwardAll D calls (forwardTxReqToMiner D p (some payload) FUNDSTX_RES s)).FundsTxChan.length
        < (forwardTxReqToMiner D p (some payload) FUNDSTX_RES s).FundsTxChan.length + 1000 →
      (forwardTxReqToMiner D p (some payload) FUNDSTX_RES s).FundsTxChan = s.FundsTxChan ++ [t] ∧
      forwardTxReqToMiner D q (some payload) FUNDSTX_RES
          (forwardAll D calls (forwardTxReqToMiner D p (some payload) FUNDSTX_RES s)) =
        forwardAll D calls (forwardTxReqToMiner D p (some payload) FUNDSTX_RES s)) := by
  refine ⟨⟨?_, ?_⟩, forward_funds_dup D p payload t s hd, ?_⟩
  · intro hfw
    by_contra hcon
    have hdup : ∃ u ∈ s.receivedTXStash, u.Hash = t.Hash := by
      by_contra hno
      exact hcon (fun u hu he => hno ⟨u, hu, he⟩)
    rw [forward_funds_dup D p payload t s hd hdup] at hfw
    have := congrArg List.length hfw
    simp at this
  · intro hnew
    rw [forward_funds_new D p payload t s hd hnew]
  · intro hnew hfew
    have step := forward_funds_new D p payload t s hd hnew
    refine ⟨by rw [step], ?_⟩
    have hstart : ∃ pre added,
        (forwardTxReqToMiner D p (some payload) FUNDSTX_RES s).receivedTXStash = pre ++ t :: added ∧
        added.length + (forwardTxReqToMiner D p (some payload) FUNDSTX_RES s).FundsTxChan.length =
          (forwardTxReqToMiner D p (some payload) FUNDSTX_RES s).FundsTxChan.length := by
      rw [step]
      by_cases hbig : (s.receivedTXStash ++ [t]).length > 1000
      · simp only [if_pos hbig]
        cases hst : s.receivedTXStash with
        | nil => simp [hst] at hbig
        | cons x rest => exact ⟨rest, [], by simp, by simp⟩
      · simp only [if_neg hbig]
        exact ⟨s.receivedTXStash, [], by simp, by simp⟩
    obtain ⟨pre, added, h1, _⟩ := stash_retains D t _ calls _ hstart hfew
    apply forward_funds_dup D q payload t _ hd
    exact ⟨t, by rw [h1]; simp, rfl⟩

/-- C6, amended, at the start-up state: 5 is delivered, then 6, then 5 again. -/
theorem requested_funds_tx_forwarded_once_witness :
    exDecoders.fundsTx [5] = some ⟨5, 0⟩ ∧
    (∀ u ∈ MinerInterface.init.receivedTXStash, u.Hash ≠ (⟨5, 0⟩ : FundsTx).Hash) ∧
    (forwardAll exDecoders [⟨1, some [6], FUNDSTX_RES⟩]
        (forwardTxReqToMiner exDecoders 0 (some [5]) FUNDSTX_RES
          MinerInterface.init)).FundsTxChan.length
      < (forwardTxReqToMiner exDecoders 0 (some [5]) FUNDSTX_RES
          MinerInterface.init).FundsTxChan.length + 1000 ∧
    (((forwardTxReqToMiner exDecoders 0 (some [5]) FUNDSTX_RES MinerInterface.init).FundsTxChan =
        MinerInterface.init.FundsTxChan ++ [⟨5, 0⟩] ↔
      ∀ u ∈ MinerInterface.init.receivedTXStash, u.Hash ≠ (⟨5, 0⟩ : FundsTx).Hash) ∧
    ((∃ u ∈ MinerInterface.init.receivedTXStash, u.Hash = (⟨5, 0⟩ : FundsTx).Hash) →
      forwardTxReqToMiner exDecoders 0 (some [5]) FUNDSTX_RES MinerInterface.init =
        MinerInterface.init) ∧
    ((∀ u ∈ MinerInterface.init.receivedTXStash, u.Hash ≠ (⟨5, 0⟩ : FundsTx).Hash) →
      (forwardAll exDecoders [⟨1, some [6], FUNDSTX_RES⟩]
          (forwardTxReqToMiner exDecoders 0 (some [5]) FUNDSTX_RES
            MinerInterface.init)).FundsTxChan.length
        < (forwardTxReqToMiner exDecoders 0 (some [5]) FUNDSTX_RES
            MinerInterface.init).FundsTxChan.length + 1000 →
      (forwardTxReqToMiner exDecoders 0 (some [5]) FUNDSTX_RES MinerInterface.init).FundsTxChan =
        MinerInterface.init.FundsTxChan ++ [⟨5, 0⟩] ∧
      forwardTxReqToMiner exDecoders 2 (some [5]) FUNDSTX_RES
          (forwardAll exDecoders [⟨1, some [6], FUNDSTX_RES⟩]
            (forwardTxReqToMiner exDecoders 0 (some [5]) FUNDSTX_RES MinerInterface.init)) =
        forwardAll exDecoders [⟨1, some [6], FUNDSTX_RES⟩]
          (forwardTxReqToMiner exDecoders 0 (some [5]) FUNDSTX_RES MinerInterface.init))) :=
  ⟨rfl, by decide, by decide,
    requested_funds_tx_forwarded_once exDecoders 0 2 [5] ⟨5, 0⟩ MinerInterface.init
      [⟨1, some [6], FUNDSTX_RES⟩] rfl⟩

/-- C7: from the start-up state, after any sequence of calls the stash holds at most 1000
entries and is the last 1000 transactions sent on the funds channel, oldest first.  After
1001 deliveries `t0 :: rest` with pairwise distinct hashes the stash is `rest`, the 2nd to
1001st, and one more delivery of `t0` is sent on the funds channel again. -/
theorem stash_keeps_last_thousand (D : Decoders) (calls : List Call) (p : PeerRef)
    (enc : FundsTx → List Nat) (t0 : FundsTx) (rest : List FundsTx)
    (hdec : ∀ t ∈ t0 :: rest, D.fundsTx (enc t) = some t) (hlen : rest.length = 1000)
    (hnd : ((t0 :: rest).map (fun t => t.Hash)).Nodup) :
    ((forwardAll D calls MinerInterface.init).receivedTXStash.length ≤ 1000 ∧
      (forwardAll D calls MinerInterface.init).receivedTXStash =
        (forwardAll D calls MinerInterface.init).FundsTxChan.drop
          ((forwardAll D calls MinerInterface.init).FundsTxChan.length - 1000)) ∧
    (forwardAll D (deliveries p enc (t0 :: rest)) MinerInterface.init).receivedTXStash = rest ∧
    (forwardTxReqToMiner D p (some (enc t0)) FUNDSTX_RES
        (forwardAll D (deliveries p enc (t0 :: rest)) MinerInterface.init)).FundsTxChan =
      (t0 :: rest) ++ [t0] := by
  have hinv := stash_eq_last_sent D calls
  have hchan : (forwardAll D (deliveries p enc (t0 :: rest)) MinerInterface.init).FundsTxChan =
      t0 :: rest := by
    have := forwardAll_distinct D p enc (t0 :: rest) MinerInterface.init hdec hnd
      (by simp [MinerInterface.init])
    simpa [MinerInterface.init] using this
  have hstash : (forwardAll D (deliveries p enc (t0 :: rest)) MinerInterface.init).receivedTXStash
      = rest := by
    rw [stash_eq_last_sent, hchan]
    have : (t0 :: rest).length - 1000 = 1 := by
      simp only [List.length_cons, hlen]
    rw [this]
    rfl
  refine ⟨⟨?_, hinv⟩, hstash, ?_⟩
  · rw [hinv, List.length_drop]
    omega
  · have hnew : ∀ u ∈ (forwardAll D (deliveries p enc (t0 :: rest))
        MinerInterface.init).receivedTXStash, u.Hash ≠ t0.Hash := by
      rw [hstash]
      intro u hu he
      simp only [List.map_cons, List.nodup_cons, List.mem_map, not_exists, not_and] at hnd
      exact hnd.1 u hu he
    rw [forward_funds_new D p (enc t0) t0 _ (hdec t0 (List.mem_cons_self _ _)) hnew]
    simp [hchan]

/-- C7, at the transactions with the hashes 0 to 1000. -/
theorem stash_keeps_last_thousand_witness :
    (∀ t ∈ (⟨0, 0⟩ : FundsTx) :: exTxs 1000, exDecoders.fundsTx (exEncode t) = some t) ∧
    (exTxs 1000).length = 1000 ∧
    (((⟨0, 0⟩ : FundsTx) :: exTxs 1000).map (fun t => t.Hash)).Nodup ∧
    (((forwardAll exDecoders [⟨1, some [6], FUNDSTX_RES⟩]
          MinerInterface.init).receivedTXStash.length ≤ 1000 ∧
      (forwardAll exDecoders [⟨1, some [6], FUNDSTX_RES⟩] MinerInterface.init).receivedTXStash =
        (forwardAll exDecoders [⟨1, some [6], FUNDSTX_RES⟩] MinerInterface.init).FundsTxChan.drop
          ((forwardAll exDecoders [⟨1, some [6], FUNDSTX_RES⟩]
            MinerInterface.init).FundsTxChan.length - 1000)) ∧
    (forwardAll exDecoders (deliveries 0 exEncode (⟨0, 0⟩ :: exTxs 1000))
      MinerInterface.init).receivedTXStash = exTxs 1000 ∧
    (forwardTxReqToMiner exDecoders 0 (some (exEncode ⟨0, 0⟩)) FUNDSTX_RES
        (forwardAll exDecoders (deliveries 0 exEncode (⟨0, 0⟩ :: exTxs 1000))
          MinerInterface.init)).FundsTxChan =
      ((⟨0, 0⟩ : FundsTx) :: exTxs 1000) ++ [⟨0, 0⟩]) := by
  have hdec : ∀ t ∈ (⟨0, 0⟩ : FundsTx) :: exTxs 1000,
      exDecoders.fundsTx (exEncode t) = some t := by
    intro t ht
    simp only [exTxs, List.mem_cons, List.mem_map] at ht
    rcases ht with rfl | ⟨i, _, rfl⟩ <;> rfl
  have hlen : (exTxs 1000).length = 1000 := by simp [exTxs]
  have hnd : (((⟨0, 0⟩ : FundsTx) :: exTxs 1000).map (fun t => t.Hash)).Nodup := by
    simp only [exTxs, List.map_cons, List.map_map, List.nodup_cons, List.mem_map,
      Function.comp]
    refine ⟨by simp, ?_⟩
    exact List.Nodup.map (fun a b hab => Nat.succ_injective hab) (List.nodup_range 1000)
  exact ⟨hdec, hlen, hnd, stash_keeps_last_thousand exDecoders [⟨1, some [6], FUNDSTX_RES⟩] 0
    exEncode ⟨0, 0⟩ (exTxs 1000) hdec hlen hnd⟩

/-! ## Properties of the peer registry -/

theorem PeerMap.keys_set (m : PeerMap) (p : PeerRef) :
    (m.set p).keys = if p ∈ m.keys then m.keys else m.keys ++ [p] := by
  unfold PeerMap.set
  split_ifs <;> rfl

theorem deleteLoop_keys (heap : PeerRef → peer) (p : PeerRef) :
    ∀ (l : List PeerRef) (acc : PeerMap),
      (l.foldl (fun acc peer =>
        if (heap p).getIPPort = (heap peer).getIPPort then acc.delete peer else acc) acc).keys =
      acc.keys.filter (fun q => !(decide (q ∈ l) && decide ((heap q).getIPPort = (heap p).getIPPort)))
  | [], acc => by simp
  | x :: l, acc => by
    rw [List.foldl_cons]
    by_cases hx : (heap p).getIPPort = (heap x).getIPPort
    · rw [if_pos hx, deleteLoop_keys heap p l (acc.delete x)]
      simp only [PeerMap.delete, List.filter_filter]
      apply List.filter_congr
      intro q _
      by_cases hq : q = x
      · subst hq
        simp [hx]
      · simp [hq]
    · rw [if_neg hx, deleteLoop_keys heap p l acc]
      apply List.filter_congr
      intro q _
      by_cases hq : q = x
      · subst hq
        have hx2 : ¬ (heap q).getIPPort = (heap p).getIPPort := fun h => hx h.symm
        simp [hx2]
      · simp [hq]

theorem deleteSameAddress_keys (heap : PeerRef → peer) (p : PeerRef) (m : PeerMap) :
    (deleteSameAddress heap p m).keys =
      m.keys.filter (fun q => decide ((heap q).getIPPort ≠ (heap p).getIPPort)) := by
  unfold deleteSameAddress
  rw [deleteLoop_keys]
  apply List.filter_congr
  intro q hq
  simp [hq]

/-- The miner keys after `add(p)` for a miner-type `p`: the entries at other addresses,
in their order, then `p`. -/
theorem add_miner_keys (check : SendingMapCheck) (p : PeerRef) (n : Network)
    (hp : (n.heap p).peerType = PEERTYPE_MINER) :
    (add check p n).peers.minerConns.keys =
      n.peers.minerConns.keys.filter
        (fun q => decide ((n.heap q).getIPPort ≠ (n.heap p).getIPPort)) ++ [p] ∧
    (add check p n).peers.clientConns = n.peers.clientConns ∧
    (add check p n).heap = n.heap := by
  have hc : ¬ (n.heap p).peerType = PEERTYPE_CLIENT := by
    rw [hp]; decide
  have hnot : p ∉ (deleteSameAddress n.heap p n.peers.minerConns).keys := by
    rw [deleteSameAddress_keys]
    simp
  refine ⟨?_, ?_, ?_⟩
  · simp only [add, if_pos hp, if_neg hc, PeerMap.keys_set, if_neg hnot]
    rw [deleteSameAddress_keys]
  · simp only [add, if_pos hp, if_neg hc]
  · simp only [add]

theorem foldl_consumeTime :
    ∀ (l : List PeerRef), l.Nodup → ∀ (acc : List Int) (heap : PeerRef → peer),
      l.foldl consumeTime (acc, heap) =
        (acc ++ l.map (fun p => (heap p).time),
         fun q => if q ∈ l then { heap q with time := 0 } else heap q)
  | [], _, acc, heap => by simp
  | x :: l, hnd, acc, heap => by
    rw [List.nodup_cons] at hnd
    rw [List.foldl_cons]
    have step : consumeTime (acc, heap) x =
        (acc ++ [(heap x).time], fun q => if q = x then { heap x with time := 0 } else heap q) :=
      rfl
    rw [step, foldl_consumeTime l hnd.2]
    have hmap : l.map (fun p =>
        ((fun q => if q = x then { heap x with time := 0 } else heap q) p).time) =
        l.map (fun p => (heap p).time) := by
      apply List.map_congr_left
      intro a ha
      have hax : a ≠ x := fun h => hnd.1 (h ▸ ha)
      simp [hax]
    rw [hmap]
    refine Prod.ext (by simp) ?_
    funext q
    by_cases hqx : q = x
    · subst hqx
      simp [hnd.1]
    · simp [hqx]

theorem getMinerTimes_eq (n : Network) :
    getMinerTimes n =
      (n.peers.minerConns.keys.map (fun p => (n.heap p).time),
       { n with heap := fun q =>
          if q ∈ n.peers.minerConns.keys then { n.heap q with time := 0 } else n.heap q }) := by
  simp [getMinerTimes, foldl_consumeTime _ n.peers.minerConns.nodup]

/-! ## The claims about the peer registry -/

/-- C8: for miner-type peers `p1` and `p2` with the same `getIPPort`, after `add(p1)`
followed by `add(p2)` the miner registry holds exactly one peer with that address, `p2`;
the miner entries at other addresses, the client registry and the peer records are as
before. -/
theorem add_twice_keeps_newest (check : SendingMapCheck) (n : Network) (p1 p2 : PeerRef)
    (h1 : (n.heap p1).peerType = PEERTYPE_MINER) (h2 : (n.heap p2).peerType = PEERTYPE_MINER)
    (haddr : (n.heap p1).getIPPort = (n.heap p2).getIPPort) :
    (add check p2 (add check p1 n)).peers.minerConns.keys.filter
        (fun q => decide ((n.heap q).getIPPort = (n.heap p2).getIPPort)) = [p2] ∧
    (add check p2 (add check p1 n)).peers.minerConns.keys.filter
        (fun q => decide ((n.heap q).getIPPort ≠ (n.heap p2).getIPPort)) =
      n.peers.minerConns.keys.filter
        (fun q => decide ((n.heap q).getIPPort ≠ (n.heap p2).getIPPort)) ∧
    (add check p2 (add check p1 n)).peers.clientConns = n.peers.clientConns ∧
    (add check p2 (add check p1 n)).heap = n.heap := by
  obtain ⟨k1, c1, e1⟩ := add_miner_keys check p1 n h1
  have h2b : ((add check p1 n).heap p2).peerType = PEERTYPE_MINER := by rw [e1]; exact h2
  obtain ⟨k2, c2, e2⟩ := add_miner_keys check p2 (add check p1 n) h2b
  have hkeys : (add check p2 (add check p1 n)).peers.minerConns.keys =
      n.peers.minerConns.keys.filter
        (fun q => decide ((n.heap q).getIPPort ≠ (n.heap p2).getIPPort)) ++ [p2] := by
    rw [k2, k1, e1, List.filter_append, List.filter_filter]
    simp [haddr]
  refine ⟨?_, ?_, c2.trans c1, e2.trans e1⟩
  · rw [hkeys, List.filter_append, List.filter_filter]
    simp
  · rw [hkeys, List.filter_append, List.filter_filter]
    simp

/-- C8, at the miners 1 and 2 of the example registry. -/
theorem add_twice_keeps_newest_witness :
    (exNetwork.heap 1).peerType = PEERTYPE_MINER ∧ (exNetwork.heap 2).peerType = PEERTYPE_MINER ∧
    (exNetwork.heap 1).getIPPort = (exNetwork.heap 2).getIPPort ∧
    ((add exCheck 2 (add exCheck 1 exNetwork)).peers.minerConns.keys.filter
        (fun q => decide ((exNetwork.heap q).getIPPort = (exNetwork.heap 2).getIPPort)) = [2] ∧
    (add exCheck 2 (add exCheck 1 exNetwork)).peers.minerConns.keys.filter
        (fun q => decide ((exNetwork.heap q).getIPPort ≠ (exNetwork.heap 2).getIPPort)) =
      exNetwork.peers.minerConns.keys.filter
        (fun q => decide ((exNetwork.heap q).getIPPort ≠ (exNetwork.heap 2).getIPPort)) ∧
    (add exCheck 2 (add exCheck 1 exNetwork)).peers.clientConns = exNetwork.peers.clientConns ∧
    (add exCheck 2 (add exCheck 1 exNetwork)).heap = exNetwork.heap) :=
  ⟨by decide, by decide, by decide,
    add_twice_keeps_newest exCheck exNetwork 1 2 (by decide) (by decide) (by decide)⟩

/-- C9: `getMinerTimes` returns the time of every miner peer, one per peer in the order
of the loop, and sets each of them to 0; every peer outside the miner set keeps its whole
record, so a client peer keeps its time when no peer is in both sets; the registry is
unchanged; and a second call returns as many zeros as there are miner peers. -/
theorem getMinerTimes_consumes (n : Network) :
    (getMinerTimes n).1 = n.peers.minerConns.keys.map (fun p => (n.heap p).time) ∧
    (∀ p ∈ n.peers.minerConns.keys,
      (getMinerTimes n).2.heap p = { n.heap p with time := 0 }) ∧
    (∀ p, p ∉ n.peers.minerConns.keys → (getMinerTimes n).2.heap p = n.heap p) ∧
    ((∀ p ∈ n.peers.clientConns.keys, p ∉ n.peers.minerConns.keys) →
      ∀ p ∈ n.peers.clientConns.keys, ((getMinerTimes n).2.heap p).time = (n.heap p).time) ∧
    (getMinerTimes n).2.peers = n.peers ∧
    (getMinerTimes (getMinerTimes n).2).1 = List.replicate n.peers.minerConns.keys.length 0 := by
  have e := getMinerTimes_eq n
  have e2 := getMinerTimes_eq (getMinerTimes n).2
  rw [e] at e2 ⊢
  refine ⟨rfl, ?_, ?_, ?_, rfl, ?_⟩
  · intro p hp
    simp [hp]
  · intro p hp
    simp [hp]
  · intro hdisj p hp
    simp [hdisj p hp]
  · rw [e2, ← List.map_const']
    apply List.map_congr_left
    intro a ha
    simp [ha]

/-- C9, at the example registry: the miner 3 reports 33, then 0; the client 4 keeps 44. -/
theorem getMinerTimes_consumes_witness :
    (∀ p ∈ exNetwork.peers.clientConns.keys, p ∉ exNetwork.peers.minerConns.keys) ∧
    (getMinerTimes exNetwork).1 = [33] ∧
    ((getMinerTimes exNetwork).2.heap 4).time = 44 ∧
    (getMinerTimes (getMinerTimes exNetwork).2).1 = [0] := by
  have h := getMinerTimes_consumes exNetwork
  refine ⟨by decide, ?_, ?_, ?_⟩
  · rw [h.1]; decide
  · rw [h.2.2.2.1 (by decide) 4 (by decide)]; decide
  · rw [h.2.2.2.2.2]; decide

/-! ## The registry invariant -/

theorem add_heap (check : SendingMapCheck) (p : PeerRef) (n : Network) :
    (add check p n).heap = n.heap := by
  simp only [add]

theorem delete_heap (p : PeerRef) (n : Network) : (delete p n).heap = n.heap := by
  simp only [delete]

theorem PeerMap.mem_set {m : PeerMap} {p q : PeerRef} (h : q ∈ (m.set p).keys) :
    q ∈ m.keys ∨ q = p := by
  rw [PeerMap.keys_set] at h
  split_ifs at h
  · exact Or.inl h
  · rcases List.mem_append.1 h with h1 | h1
    · exact Or.inl h1
    · exact Or.inr (by simpa using h1)

theorem PeerMap.mem_delete {m : PeerMap} {p q : PeerRef} (h : q ∈ (m.delete p).keys) :
    q ∈ m.keys :=
  (List.mem_filter.1 h).1

/-- A key of the miner map after `add(p)` was a key before, or is `p` of type miner. -/
theorem add_miner_mem (check : SendingMapCheck) (p q : PeerRef) (n : Network)
    (h : q ∈ (add check p n).peers.minerConns.keys) :
    q ∈ n.peers.minerConns.keys ∨ (q = p ∧ (n.heap p).peerType = PEERTYPE_MINER) := by
  by_cases hm : (n.heap p).peerType = PEERTYPE_MINER
  · rw [(add_miner_keys check p n hm).1] at h
    rcases List.mem_append.1 h with h1 | h1
    · exact Or.inl (List.mem_filter.1 h1).1
    · exact Or.inr ⟨by simpa using h1, hm⟩
  · left
    simp only [add, if_neg hm] at h
    split_ifs at h <;> exact h

/-- A key of the client map after `add(p)` was a key before, or is `p` of type client. -/
theorem add_client_mem (check : SendingMapCheck) (p q : PeerRef) (n : Network)
    (h : q ∈ (add check p n).peers.clientConns.keys) :
    q ∈ n.peers.clientConns.keys ∨ (q = p ∧ (n.heap p).peerType = PEERTYPE_CLIENT) := by
  by_cases hc : (n.heap p).peerType = PEERTYPE_CLIENT
  · have hm : ¬ (n.heap p).peerType = PEERTYPE_MINER := by rw [hc]; decide
    simp only [add, if_neg hm, if_pos hc] at h
    rcases PeerMap.mem_set h with h1 | h1
    · exact Or.inl h1
    · exact Or.inr ⟨h1, hc⟩
  · left
    simp only [add, if_neg hc] at h
    split_ifs at h <;> exact h

theorem delete_miner_mem (p q : PeerRef) (n : Network)
    (h : q ∈ (delete p n).peers.minerConns.keys) : q ∈ n.peers.minerConns.keys := by
  simp only [delete] at h
  split_ifs at h
  all_goals first | exact h | exact PeerMap.mem_delete h

theorem delete_client_mem (p q : PeerRef) (n : Network)
    (h : q ∈ (delete p n).peers.clientConns.keys) : q ∈ n.peers.clientConns.keys := by
  simp only [delete] at h
  split_ifs at h
  all_goals first | exact h | exact PeerMap.mem_delete h

theorem typedRegistry_empty (heap : PeerRef → peer)
    (sendingMap : List (String × delayedMessagesPerSender)) :
    typedRegistry (emptyRegistry heap sendingMap) := by
  constructor <;> intro p hp <;> simp [emptyRegistry, PeerMap.empty] at hp

theorem typedRegistry_add (check : SendingMapCheck) (p : PeerRef) (n : Network)
    (h : typedRegistry n) : typedRegistry (add check p n) := by
  constructor
  · intro q hq
    rw [add_heap]
    rcases add_miner_mem check p q n hq with h1 | ⟨rfl, h1⟩
    · exact h.1 q h1
    · exact h1
  · intro q hq
    rw [add_heap]
    rcases add_client_mem check p q n hq with h1 | ⟨rfl, h1⟩
    · exact h.2 q h1
    · exact h1

theorem typedRegistry_delete (p : PeerRef) (n : Network) (h : typedRegistry n) :
    typedRegistry (delete p n) := by
  constructor
  · intro q hq
    rw [delete_heap]
    exact h.1 q (delete_miner_mem p q n hq)
  · intro q hq
    rw [delete_heap]
    exact h.2 q (delete_client_mem p q n hq)

theorem typedRegistry_getMinerTimes (n : Network) (h : typedRegistry n) :
    typedRegistry (getMinerTimes n).2 := by
  rw [getMinerTimes_eq]
  constructor
  · intro q hq
    have := h.1 q hq
    simp only
    split_ifs <;> exact this
  · intro q hq
    have := h.2 q hq
    simp only
    split_ifs <;> exact this

theorem runCalls_invariant (check : SendingMapCheck) :
    ∀ (calls : List RegistryCall) (n : Network), typedRegistry n →
      typedRegistry (runCalls check calls n) ∧ (runCalls check calls n).heap = n.heap
  | [], n, h => ⟨h, rfl⟩
  | c :: rest, n, h => by
    have hstep : typedRegistry (c.run check n) ∧ (c.run check n).heap = n.heap := by
      cases c with
      | add p => exact ⟨typedRegistry_add check p n h, add_heap check p n⟩
      | delete p => exact ⟨typedRegistry_delete p n h, delete_heap p n⟩
    have ih := runCalls_invariant check rest (c.run check n) hstep.1
    have e : runCalls check (c :: rest) n = runCalls check rest (c.run check n) := by
      simp [runCalls]
    rw [e]
    exact ⟨ih.1, ih.2.trans hstep.2⟩

/-- C11: starting from the empty registry, after any sequence of `add` and `delete`
calls every key of the miner map is a peer of type miner and every key of the client map
a peer of type client; hence no peer is in both maps, and a peer whose type is neither
value is in neither map.  The calls leave the peer records as they were. -/
theorem registries_stay_disjoint (check : SendingMapCheck) (heap : PeerRef → peer)
    (sendingMap : List (String × delayedMessagesPerSender)) (calls : List RegistryCall) :
    (runCalls check calls (emptyRegistry heap sendingMap)).heap = heap ∧
    (∀ p ∈ (runCalls check calls (emptyRegistry heap sendingMap)).peers.minerConns.keys,
      (heap p).peerType = PEERTYPE_MINER) ∧
    (∀ p ∈ (runCalls check calls (emptyRegistry heap sendingMap)).peers.clientConns.keys,
      (heap p).peerType = PEERTYPE_CLIENT) ∧
    (∀ p ∈ (runCalls check calls (emptyRegistry heap sendingMap)).peers.minerConns.keys,
      p ∉ (runCalls check calls (emptyRegistry heap sendingMap)).peers.clientConns.keys) ∧
    (∀ p, (heap p).peerType ≠ PEERTYPE_MINER → (heap p).peerType ≠ PEERTYPE_CLIENT →
      p ∉ (runCalls check calls (emptyRegistry heap sendingMap)).peers.minerConns.keys ∧
      p ∉ (runCalls check calls (emptyRegistry heap sendingMap)).peers.clientConns.keys) := by
  obtain ⟨⟨hm, hc⟩, hh⟩ := runCalls_invariant check calls (emptyRegistry heap sendingMap)
    (typedRegistry_empty heap sendingMap)
  have hheap : (runCalls check calls (emptyRegistry heap sendingMap)).heap = heap := hh
  rw [hheap] at hm hc
  refine ⟨hheap, hm, hc, ?_, ?_⟩
  · intro p hp hpc
    have h1 := hm p hp
    rw [hc p hpc] at h1
    exact absurd h1 (by decide)
  · intro p hnm hnc
    exact ⟨fun hp => hnm (hm p hp), fun hp => hnc (hc p hp)⟩

/-- C11, at the example peers: after seven calls the miner map holds 2 and 3, the client
map holds 5, and the properties of the claim hold for them. -/
theorem registries_stay_disjoint_witness :
    (runCalls exCheck [.add 1, .add 4, .add 2, .add 3, .delete 4, .add 5, .delete 9]
      (emptyRegistry exHeap [])).peers.minerConns.keys = [2, 3] ∧
    (runCalls exCheck [.add 1, .add 4, .add 2, .add 3, .delete 4, .add 5, .delete 9]
      (emptyRegistry exHeap [])).peers.clientConns.keys = [5] ∧
    (∀ p ∈ (runCalls exCheck [.add 1, .add 4, .add 2, .add 3, .delete 4, .add 5, .delete 9]
        (emptyRegistry exHeap [])).peers.minerConns.keys,
      p ∉ (runCalls exCheck [.add 1, .add 4, .add 2, .add 3, .delete 4, .add 5, .delete 9]
        (emptyRegistry exHeap [])).peers.clientConns.keys) :=
  ⟨by decide, by decide,
    (registries_stay_disjoint exCheck exHeap []
      [.add 1, .add 4, .add 2, .add 3, .delete 4, .add 5, .delete 9]).2.2.2.1⟩

end Bazo
